import Mathlib

/-!
Verification of the dap-js core: identifier grammars (Urn, Dap, RegistrationId),
the canonical digest engine, the compact JWS codec with detached mode, and the
DAP registration record.  JavaScript strings are modelled as lists of
characters (`JStr`); byte arrays as lists of naturals below 256; thrown
exceptions as `Except` values carrying the error class and message.
-/

/-- Model of a JavaScript string: a sequence of characters. -/
abbrev JStr := List Char

/-- Coerce a Lean string literal into the JavaScript string model. -/
def jstr (s : String) : JStr := s.toList

/-- The error classes thrown by the library (`InvalidUrn`, `InvalidDap`,
`InvalidRegistrationId`, `InvalidJws`, `InvalidDapRegistration`) together with
the plain `Error` class used once in `Crypto.verify`. -/
inductive JsError where
  | invalidUrn : JsError
  | invalidDap : JsError
  | invalidRegistrationId (msg : String) : JsError
  | invalidJws (msg : String) : JsError
  | invalidDapRegistration (msg : String) : JsError
  | genericError (msg : String) : JsError
  | typeError (msg : String) : JsError
deriving DecidableEq, Repr

/-- JavaScript line terminators, the characters `.` does not match in a
JavaScript regular expression without the `s` flag. -/
def lineTerm (c : Char) : Bool :=
  c = '\n' || c = '\r' || c = Char.ofNat 0x2028 || c = Char.ofNat 0x2029

/- ### Urn (src/urn.ts) -/

/-- `new Urn(nid, nss)` — the constructor performs no validation. -/
structure Urn where
  nid : JStr
  nss : JStr
deriving DecidableEq, Repr

/-- `Urn.prototype.toString`: the `urn` field set in the constructor,
`` `urn:${nid}:${nss}` ``. -/
def Urn.toStr (u : Urn) : JStr := jstr "urn:" ++ u.nid ++ [':'] ++ u.nss

/-- Matching of the JavaScript regular expression `^urn:([^:]+):(.+)$`
against a string: the literal `urn:` anchor, then a maximal non-empty run of
non-`:` characters (greedy `[^:]+`; a shorter run would have to be followed
by `:`, impossible since its characters are non-`:`, so only the maximal run
can continue the match), then `:`, then `.+$` which must consume the entire
remainder, so the remainder is non-empty and free of line terminators
(JavaScript `.` does not match those). -/
def urnTail (rest : JStr) : Option (JStr × JStr) :=
  if rest.takeWhile (· ≠ ':') = [] then none
  else
    match rest.dropWhile (· ≠ ':') with
    | [] => none
    | _ :: nss =>
      if nss ≠ [] ∧ (∀ c ∈ nss, lineTerm c = false)
      then some (rest.takeWhile (· ≠ ':'), nss) else none

def urnMatch : JStr → Option (JStr × JStr)
  | 'u' :: 'r' :: 'n' :: ':' :: rest => urnTail rest
  | _ => none

/-- `Urn.parse`: match the pattern, throw `InvalidUrn` when it fails. -/
def Urn.parse (s : JStr) : Except JsError Urn :=
  match urnMatch s with
  | some (nid, nss) => .ok ⟨nid, nss⟩
  | none => .error .invalidUrn

/- ### Dap (src/dap.ts) -/

/-- `new Dap(handle, domain)` — the constructor performs no validation. -/
structure Dap where
  handle : JStr
  domain : JStr
deriving DecidableEq, Repr

/-- `Dap.prototype.toString`: `` `@${handle}/${domain}` ``. -/
def Dap.toStr (d : Dap) : JStr := '@' :: d.handle ++ '/' :: d.domain

/-- A character allowed inside a Dap handle or domain segment (`[^@/]`). -/
def dapSegChar (c : Char) : Bool := c ≠ '@' && c ≠ '/'

/-- Matching of the JavaScript regular expression `^@([^@/]+)/([^@/]+)$`:
`@`, a maximal non-empty run of non-`@` non-`/` characters, `/`, a second
such run which must reach the end of the string (as with `urnMatch`, greedy
runs admit no backtracking here because a shorter run would have to be
followed by a character the run itself excludes). -/
def dapTail (h : JStr) : JStr → Option (JStr × JStr)
  | [] => none
  | c1 :: rest2 =>
    if c1 = '/' then
      if rest2.takeWhile dapSegChar ≠ [] ∧ rest2.dropWhile dapSegChar = []
      then some (h, rest2.takeWhile dapSegChar) else none
    else none

def dapMatch : JStr → Option (JStr × JStr)
  | [] => none
  | c0 :: rest =>
    if c0 = '@' then
      if rest.takeWhile dapSegChar = [] then none
      else dapTail (rest.takeWhile dapSegChar) (rest.dropWhile dapSegChar)
    else none

/-- `Dap.parse`: match the pattern, throw `InvalidDap` when it fails. -/
def Dap.parse (s : JStr) : Except JsError Dap :=
  match dapMatch s with
  | some (h, d) => .ok ⟨h, d⟩
  | none => .error .invalidDap

/-- The specification's grammar for a Dap string (`^@([^@/]+)/([^@/]+)$`,
stated as a structural decomposition): the spec side of claim C7. -/
def DapSpec (s : JStr) (h d : JStr) : Prop :=
  s = '@' :: h ++ '/' :: d ∧ h ≠ [] ∧ d ≠ [] ∧
    (∀ c ∈ h, dapSegChar c) ∧ (∀ c ∈ d, dapSegChar c)

/- ### Grammar lemmas -/

theorem urnMatch_of_shape (nid nss : JStr) (h1 : nid ≠ [])
    (h2 : ∀ c ∈ nid, c ≠ ':') (h3 : nss ≠ [])
    (h4 : ∀ c ∈ nss, lineTerm c = false) :
    urnMatch (jstr "urn:" ++ nid ++ [':'] ++ nss) = some (nid, nss) := by
  have hshape : jstr "urn:" ++ nid ++ [':'] ++ nss
      = 'u' :: 'r' :: 'n' :: ':' :: (nid ++ ':' :: nss) := by
    simp [jstr]
  rw [hshape]
  have hall : ∀ x ∈ nid, (fun a => decide (a ≠ ':')) x = true := by
    intro x hx; simpa using h2 x hx
  have htake : (nid ++ ':' :: nss).takeWhile (· ≠ ':') = nid := by
    rw [List.takeWhile_append_of_pos hall]
    simp
  have hdrop : (nid ++ ':' :: nss).dropWhile (· ≠ ':') = ':' :: nss := by
    rw [List.dropWhile_append_of_pos hall]
    simp
  show urnTail (nid ++ ':' :: nss) = some (nid, nss)
  unfold urnTail
  rw [htake, hdrop, if_neg h1]
  show (if nss ≠ [] ∧ ∀ c ∈ nss, lineTerm c = false then some (nid, nss) else none)
      = some (nid, nss)
  rw [if_pos ⟨h3, h4⟩]

theorem dapMatch_complete (s h d : JStr) (hs : DapSpec s h d) :
    dapMatch s = some (h, d) := by
  obtain ⟨rfl, h1, h2, hmh, hmd⟩ := hs
  have hslash : dapSegChar '/' = false := by decide
  have htake : (h ++ '/' :: d).takeWhile dapSegChar = h := by
    rw [List.takeWhile_append_of_pos hmh, List.takeWhile_cons_of_neg (by simp [hslash])]
    simp
  have hdrop : (h ++ '/' :: d).dropWhile dapSegChar = '/' :: d := by
    rw [List.dropWhile_append_of_pos hmh, List.dropWhile_cons_of_neg (by simp [hslash])]
  have htaked : d.takeWhile dapSegChar = d := List.takeWhile_eq_self_iff.mpr hmd
  have hdropd : d.dropWhile dapSegChar = [] := List.dropWhile_eq_nil_iff.mpr hmd
  show dapMatch ('@' :: (h ++ '/' :: d)) = some (h, d)
  simp only [dapMatch, htake, hdrop, if_pos rfl, if_neg h1, dapTail, htaked, hdropd]
  simp [h2]

theorem dapMatch_sound (s h d : JStr) (hm : dapMatch s = some (h, d)) :
    DapSpec s h d := by
  match s with
  | [] => simp [dapMatch] at hm
  | c0 :: rest =>
    simp only [dapMatch] at hm
    by_cases hc0 : c0 = '@'
    case neg => rw [if_neg hc0] at hm; exact absurd hm (by simp)
    rw [if_pos hc0] at hm
    subst hc0
    by_cases hnil : rest.takeWhile dapSegChar = []
    · rw [if_pos hnil] at hm; exact absurd hm (by simp)
    rw [if_neg hnil] at hm
    rcases hdw : rest.dropWhile dapSegChar with _ | ⟨cd, rest2⟩ <;> rw [hdw] at hm
    · exact absurd hm (by simp [dapTail])
    simp only [dapTail] at hm
    by_cases hcd : cd = '/'
    case neg => rw [if_neg hcd] at hm; exact absurd hm (by simp)
    rw [if_pos hcd] at hm
    subst hcd
    split at hm
    · rename_i hcond
      obtain ⟨hd1, hd2⟩ := hcond
      injection hm with hm'
      injection hm' with he1 he2
      subst he1; subst he2
      refine ⟨?_, hnil, hd1, fun x hx => List.mem_takeWhile_imp hx,
        fun x hx => List.mem_takeWhile_imp hx⟩
      have hre : rest.takeWhile dapSegChar ++ rest.dropWhile dapSegChar = rest :=
        List.takeWhile_append_dropWhile ..
      have hre2 : rest2.takeWhile dapSegChar ++ rest2.dropWhile dapSegChar = rest2 :=
        List.takeWhile_append_dropWhile ..
      rw [hd2, List.append_nil] at hre2
      rw [hdw] at hre
      rw [hre2]
      exact congrArg (fun l => '@' :: l) hre.symm
    · exact absurd hm (by simp)

/-- C6 (amended): for every string of the form `urn:<nid>:<nss>` with
non-empty `nid` containing no `:` and non-empty `nss` containing no
JavaScript line terminator (`nss` may contain `:`), `Urn.parse` succeeds with
those components, and `toString` of the result reproduces the input exactly. -/
theorem urn_parse_roundtrip (nid nss : JStr) (h1 : nid ≠ [])
    (h2 : ∀ c ∈ nid, c ≠ ':') (h3 : nss ≠ [])
    (h4 : ∀ c ∈ nss, lineTerm c = false) :
    Urn.parse (jstr "urn:" ++ nid ++ [':'] ++ nss) = .ok (Urn.mk nid nss) ∧
    (Urn.mk nid nss).toStr = jstr "urn:" ++ nid ++ [':'] ++ nss := by
  constructor
  · unfold Urn.parse
    rw [urnMatch_of_shape nid nss h1 h2 h3 h4]
  · rfl

/-- Witness for `urn_parse_roundtrip` at `urn:a:b:c`. -/
theorem urn_parse_roundtrip_witness :
    Urn.parse (jstr "urn:" ++ jstr "a" ++ [':'] ++ jstr "b:c")
      = .ok (Urn.mk (jstr "a") (jstr "b:c")) ∧
    (Urn.mk (jstr "a") (jstr "b:c")).toStr = jstr "urn:" ++ jstr "a" ++ [':'] ++ jstr "b:c" :=
  urn_parse_roundtrip (jstr "a") (jstr "b:c")
    (by decide) (by decide) (by decide) (by decide)

/-- C6 counterexample: the claim quantifies over every non-empty `nss`, but a
`nss` containing a line terminator (here `"\n"`, so the input is `urn:a:` ++
`"\n"` with `nid = "a"`, `nss = "\n"`) is rejected by `Urn.parse`, because
JavaScript `.` in the pattern `^urn:([^:]+):(.+)$` does not match line
terminators. -/
theorem urn_parse_newline_fails :
    Urn.parse (jstr "urn:a:\n") = .error .invalidUrn := by rfl

/-- C7: `Dap.parse` accepts exactly the strings matching
`^@([^@/]+)/([^@/]+)$`: every string admitting such a decomposition parses to
its two capture groups and `toString` of the result reproduces the input;
every other string fails with `InvalidDap`. -/
theorem dap_parse_exact :
    (∀ s h d, DapSpec s h d →
      Dap.parse s = .ok (Dap.mk h d) ∧ (Dap.mk h d).toStr = s) ∧
    (∀ s, (¬ ∃ h d, DapSpec s h d) → Dap.parse s = .error .invalidDap) := by
  constructor
  · intro s h d hs
    refine ⟨?_, hs.1.symm⟩
    unfold Dap.parse
    rw [dapMatch_complete s h d hs]
  · intro s hns
    unfold Dap.parse
    rcases hdm : dapMatch s with _ | ⟨h, d⟩
    · rfl
    · exact absurd ⟨h, d, dapMatch_sound s h d hdm⟩ hns

/-- Witness for `dap_parse_exact`: the positive direction at
`@handle/domain.com` and the negative direction at `@handle` (no separator). -/
theorem dap_parse_exact_witness :
    (Dap.parse (jstr "@handle/domain.com")
        = .ok (Dap.mk (jstr "handle") (jstr "domain.com")) ∧
      (Dap.mk (jstr "handle") (jstr "domain.com")).toStr = jstr "@handle/domain.com") ∧
    Dap.parse (jstr "@handle") = .error .invalidDap := by
  constructor
  · exact dap_parse_exact.1 (jstr "@handle/domain.com") (jstr "handle") (jstr "domain.com")
      ⟨by decide, by decide, by decide, by decide, by decide⟩
  · refine dap_parse_exact.2 (jstr "@handle") ?_
    rintro ⟨h, d, hs, -, -, -, -⟩
    have hmem : '/' ∈ '@' :: h ++ '/' :: d := by simp
    rw [← hs] at hmem
    revert hmem
    decide

/-- C10: the `Urn` and `Dap` constructors perform no validation, so the
round-trip law fails for directly constructed values whose segments contain
delimiters: `new Urn("a:b", "c")` prints as `urn:a:b:c`, which re-parses with
different components (`nid = "a"`, `nss = "b:c"`), and `new Dap("a/b", "c")`
prints as `@a/b/c`, which does not re-parse at all. -/
theorem ctor_roundtrip_violations :
    (Urn.mk (jstr "a:b") (jstr "c")).toStr = jstr "urn:a:b:c" ∧
    Urn.parse ((Urn.mk (jstr "a:b") (jstr "c")).toStr) = .ok (Urn.mk (jstr "a") (jstr "b:c")) ∧
    Urn.mk (jstr "a") (jstr "b:c") ≠ Urn.mk (jstr "a:b") (jstr "c") ∧
    (Dap.mk (jstr "a/b") (jstr "c")).toStr = jstr "@a/b/c" ∧
    Dap.parse ((Dap.mk (jstr "a/b") (jstr "c")).toStr) = .error .invalidDap := by
  exact ⟨by rfl, by rfl, by decide, by rfl, by rfl⟩

/- ### Fixed-width digit expansions (base 16 for UUID hex, base 32 for TypeID) -/

/-- The `w` base-`b` digits of `n`, most significant first. -/
def natToDigits (b : Nat) : Nat → Nat → List Nat
  | 0, _ => []
  | w + 1, n => (n / b ^ w % b) :: natToDigits b w n

/-- Reassemble a most-significant-first digit list into a number. -/
def digitsToNat (b : Nat) (ds : List Nat) : Nat :=
  ds.foldl (fun acc d => acc * b + d) 0

theorem length_natToDigits (b : Nat) : ∀ w n, (natToDigits b w n).length = w
  | 0, _ => rfl
  | w + 1, n => by simp [natToDigits, length_natToDigits b w n]

theorem mem_natToDigits_lt (b : Nat) (hb : 0 < b) :
    ∀ w n, ∀ d ∈ natToDigits b w n, d < b
  | 0, _, d, hd => by simp [natToDigits] at hd
  | w + 1, n, d, hd => by
    simp only [natToDigits, List.mem_cons] at hd
    rcases hd with rfl | hd
    · exact Nat.mod_lt _ hb
    · exact mem_natToDigits_lt b hb w n d hd

theorem foldl_digits (b : Nat) : ∀ (w n a : Nat),
    (natToDigits b w n).foldl (fun acc d => acc * b + d) a = a * b ^ w + n % b ^ w
  | 0, n, a => by simp [natToDigits, Nat.mod_one]
  | w + 1, n, a => by
    show (natToDigits b w n).foldl (fun acc d => acc * b + d) (a * b + n / b ^ w % b)
        = a * b ^ (w + 1) + n % b ^ (w + 1)
    rw [foldl_digits b w n (a * b + n / b ^ w % b)]
    have hmm : n % (b ^ w * b) = n % b ^ w + b ^ w * (n / b ^ w % b) := Nat.mod_mul
    rw [pow_succ, hmm]
    ring

theorem digitsToNat_natToDigits (b w n : Nat) :
    digitsToNat b (natToDigits b w n) = n % b ^ w := by
  unfold digitsToNat
  rw [foldl_digits]
  simp

theorem foldl_digitsToNat (b : Nat) : ∀ (ys : List Nat) (a : Nat),
    ys.foldl (fun acc d => acc * b + d) a = a * b ^ ys.length + digitsToNat b ys
  | [], a => by simp [digitsToNat]
  | y :: ys, a => by
    show ys.foldl (fun acc d => acc * b + d) (a * b + y) = _
    rw [foldl_digitsToNat b ys (a * b + y)]
    have hy : digitsToNat b (y :: ys) = y * b ^ ys.length + digitsToNat b ys := by
      show ys.foldl (fun acc d => acc * b + d) (0 * b + y) = _
      rw [foldl_digitsToNat b ys (0 * b + y)]
      ring
    rw [hy]
    simp only [List.length_cons]
    ring

theorem digitsToNat_append (b : Nat) (xs ys : List Nat) :
    digitsToNat b (xs ++ ys) =
      digitsToNat b xs * b ^ ys.length + digitsToNat b ys := by
  unfold digitsToNat
  rw [List.foldl_append, foldl_digitsToNat b ys]
  rfl

theorem natToDigits_drop (b : Nat) : ∀ (k w n : Nat),
    (natToDigits b w n).drop k = natToDigits b (w - k) n := by
  intro k
  induction k with
  | zero => simp
  | succ k ih =>
    intro w n
    match w with
    | 0 => simp [natToDigits]
    | w + 1 =>
      show (natToDigits b w n).drop k = _
      rw [ih w n]
      have hwk : w + 1 - (k + 1) = w - k := by omega
      rw [hwk]

theorem natToDigits_take (b : Nat) : ∀ (k w n : Nat), k ≤ w →
    (natToDigits b w n).take k = natToDigits b k (n / b ^ (w - k)) := by
  intro k
  induction k with
  | zero => simp [natToDigits]
  | succ k ih =>
    intro w n hk
    match w, hk with
    | w + 1, hk =>
      have hk' : k ≤ w := Nat.succ_le_succ_iff.mp hk
      show (n / b ^ w % b) :: (natToDigits b w n).take k = _
      rw [ih w n hk']
      show _ = (n / b ^ (w + 1 - (k + 1)) / b ^ k % b)
          :: natToDigits b k (n / b ^ (w + 1 - (k + 1)))
      have hw : w + 1 - (k + 1) = w - k := by omega
      rw [hw, Nat.div_div_eq_div_mul, ← pow_add]
      have hwk : w - k + k = w := by omega
      rw [hwk]

/- ### Crockford base32 (typeid-js suffix encoding) and hexadecimal -/

/-- Modelled from the spec: the TypeID suffix alphabet used by the external
`typeid-js` library (Crockford base32, lowercase, excluding i, l, o, u). -/
def b32Alphabet : JStr := jstr "0123456789abcdefghjkmnpqrstvwxyz"

def b32Char (d : Nat) : Char := b32Alphabet.getD d '?'

def b32Val (c : Char) : Option Nat := b32Alphabet.findIdx? (· = c)

def hexChar (d : Nat) : Char := (jstr "0123456789abcdef").getD d '?'

def hexVal (c : Char) : Option Nat :=
  if '0' ≤ c ∧ c ≤ '9' then some (c.toNat - '0'.toNat)
  else if 'a' ≤ c ∧ c ≤ 'f' then some (c.toNat - 'a'.toNat + 10)
  else if 'A' ≤ c ∧ c ≤ 'F' then some (c.toNat - 'A'.toNat + 10)
  else none

/-- Model of JavaScript `parseInt(s, 16)` on strings that begin with hex
digits: the value of the maximal hex-digit run at the front. -/
def parseIntHex (s : JStr) : Nat :=
  digitsToNat 16 ((s.takeWhile (fun c => (hexVal c).isSome)).map (fun c => (hexVal c).getD 0))

/-- Model of JavaScript `String.prototype.replace(c, '')` with a
single-character search string: removes the first occurrence only. -/
def jsReplaceFirst (c : Char) : JStr → JStr
  | [] => []
  | x :: xs => if x = c then xs else x :: jsReplaceFirst c xs

theorem jsReplaceFirst_append (c : Char) (a b : JStr) (ha : c ∉ a) :
    jsReplaceFirst c (a ++ c :: b) = a ++ b := by
  induction a with
  | nil => simp [jsReplaceFirst]
  | cons x xs ih =>
    simp only [List.mem_cons, not_or] at ha
    simp only [List.cons_append, jsReplaceFirst]
    rw [if_neg (fun hxc => ha.1 hxc.symm)]
    show x :: jsReplaceFirst c (xs ++ c :: b) = _
    rw [ih ha.2]

/- ### TypeID (external typeid-js library) and RegistrationId (src/registration-id.ts) -/

/-- Modelled from the spec: a TypeID value of the external `typeid-js`
library, a type prefix (named `tag` here) plus a 26-character Crockford
base32 suffix encoding a 128-bit UUID. -/
structure TypeId where
  tag : JStr
  suffix : JStr
deriving DecidableEq, Repr

/-- Modelled from the spec: validation of a TypeID suffix — exactly 26
characters, all in the Crockford alphabet, leading character at most `7` so
the value fits in 128 bits.  A wrong length reports `Invalid length`
(pinned by this repository's test `registration-id.test.ts`). -/
def validateSuffix (suf : JStr) : Except String Unit :=
  if suf.length ≠ 26 then .error "Invalid length"
  else if ¬ (∀ c ∈ suf, (b32Val c).isSome) then .error "Invalid base32 character"
  else if ¬ (suf.headD '0' ≤ '7') then .error "Suffix must start with 0-7"
  else .ok ()

/-- Modelled from the spec: a valid TypeID type prefix (lowercase ASCII
letters, non-empty). -/
def validTag (tag : JStr) : Bool := !tag.isEmpty && tag.all (fun c => 'a' ≤ c && c ≤ 'z')

/-- The part of `s` after the last occurrence of `c`. -/
def afterLast (c : Char) (s : JStr) : JStr := (s.reverse.takeWhile (· ≠ c)).reverse

/-- The part of `s` before the last occurrence of `c` (given `c ∈ s`). -/
def beforeLast (c : Char) (s : JStr) : JStr :=
  ((s.reverse.dropWhile (· ≠ c)).drop 1).reverse

/-- Modelled from the spec: `TypeID.fromString` of the external `typeid-js`
library.  A string with an underscore splits at the last underscore into a
type prefix and a suffix (the prefix must be valid and non-empty); a string
without an underscore is a bare suffix with the empty prefix.  The suffix is
validated in both cases. -/
def typeIdFromString (s : JStr) : Except String TypeId :=
  if '_' ∈ s then
    let tag := beforeLast '_' s
    if validTag tag = false then .error "Invalid prefix"
    else
      match validateSuffix (afterLast '_' s) with
      | .error e => .error e
      | .ok _ => .ok ⟨tag, afterLast '_' s⟩
  else
    match validateSuffix s with
    | .error e => .error e
    | .ok _ => .ok ⟨[], s⟩

/-- `RegistrationId` wraps a `TypeID<'reg'>`; only the suffix varies. -/
structure RegistrationId where
  suffix : JStr
deriving DecidableEq, Repr

/-- `RegistrationId.prototype.toString`: the TypeID string form
`reg_<suffix>`. -/
def RegistrationId.toStr (r : RegistrationId) : JStr := jstr "reg_" ++ r.suffix

/-- `RegistrationId.parse` (src/registration-id.ts): `TypeID.fromString`,
then the check `parsed.getType() !== 'reg'`.  Any error thrown inside the
`try` block — including the prefix-check `InvalidRegistrationId` itself — is
caught and rethrown as `InvalidRegistrationId(error.message)`, preserving the
message. -/
def RegistrationId.parse (s : JStr) : Except JsError RegistrationId :=
  match typeIdFromString s with
  | .error msg => .error (.invalidRegistrationId msg)
  | .ok tid =>
    if tid.tag ≠ jstr "reg" then
      .error (.invalidRegistrationId "Registration ID prefix must be \"reg\"")
    else .ok ⟨tid.suffix⟩

/-- Modelled from the spec: `typeid('reg')` generates a UUIDv7 — 48 bits of
millisecond wall-clock timestamp, then the version nibble `7`, 12 random
bits, the variant bits `10`, and 62 random bits — and base32-encodes its 128
bits as the 26-character suffix.  `randA < 2^12` and `randB < 2^62` are the
two random fields. -/
def uuidv7 (tMs randA randB : Nat) : Nat :=
  (tMs % 2 ^ 48) * 2 ^ 80 +
    (7 * 2 ^ 76 + (randA % 2 ^ 12) * 2 ^ 64 + 2 * 2 ^ 62 + randB % 2 ^ 62)

/-- `RegistrationId.create` at wall-clock time `tMs` (milliseconds since the
Unix epoch) with random fields `randA`, `randB`. -/
def RegistrationId.create (tMs randA randB : Nat) : RegistrationId :=
  ⟨(natToDigits 32 26 (uuidv7 tMs randA randB)).map b32Char⟩

/-- `TypeID.prototype.toUUID`: decode the base32 suffix back to the 128-bit
value. -/
def RegistrationId.toUUIDNat (r : RegistrationId) : Nat :=
  digitsToNat 32 (r.suffix.map (fun c => (b32Val c).getD 0))

/-- Hyphenate 32 hex characters in the canonical 8-4-4-4-12 UUID grouping. -/
def withDashes (h : JStr) : JStr :=
  (h.take 8 ++ '-' :: (h.drop 8).take 4)
    ++ ('-' :: ((h.drop 12).take 4 ++ ('-' :: ((h.drop 16).take 4 ++ '-' :: h.drop 20))))

/-- The canonical hyphenated UUID string of a 128-bit value. -/
def uuidStr (n : Nat) : JStr := withDashes ((natToDigits 16 32 n).map hexChar)

/-- `RegistrationId.prototype.extractTimestamp`:
`this.value.toUUID().slice(0, 13).replace('-', '')` parsed as hex
(`slice(0, 13)` keeps the first 13 characters; `replace` with a string
pattern removes only the first hyphen). -/
def RegistrationId.extractTimestamp (r : RegistrationId) : Nat :=
  parseIntHex (jsReplaceFirst '-' ((uuidStr r.toUUIDNat).take 13))

/- ### RegistrationId timestamp round trip -/

theorem b32_roundtrip : ∀ d, d < 32 → b32Val (b32Char d) = some d := by decide

theorem hex_roundtrip : ∀ d, d < 16 → hexVal (hexChar d) = some d := by decide

theorem hexChar_ne_dash : ∀ d, d < 16 → hexChar d ≠ '-' := by decide

theorem uuidv7_lt (tMs randA randB : Nat) : uuidv7 tMs randA randB < 2 ^ 128 := by
  unfold uuidv7
  have h1 : tMs % 2 ^ 48 < 2 ^ 48 := Nat.mod_lt _ (by norm_num)
  have h2 : randA % 2 ^ 12 < 2 ^ 12 := Nat.mod_lt _ (by norm_num)
  have h3 : randB % 2 ^ 62 < 2 ^ 62 := Nat.mod_lt _ (by norm_num)
  omega

theorem uuidv7_div (tMs randA randB : Nat) :
    uuidv7 tMs randA randB / 2 ^ 80 = tMs % 2 ^ 48 := by
  unfold uuidv7
  have h2 : randA % 2 ^ 12 < 2 ^ 12 := Nat.mod_lt _ (by norm_num)
  have h3 : randB % 2 ^ 62 < 2 ^ 62 := Nat.mod_lt _ (by norm_num)
  omega

theorem toUUIDNat_create (tMs randA randB : Nat) :
    (RegistrationId.create tMs randA randB).toUUIDNat = uuidv7 tMs randA randB := by
  unfold RegistrationId.create RegistrationId.toUUIDNat
  rw [List.map_map]
  have hmap : (natToDigits 32 26 (uuidv7 tMs randA randB)).map
        ((fun c => (b32Val c).getD 0) ∘ b32Char)
      = (natToDigits 32 26 (uuidv7 tMs randA randB)).map id := by
    apply List.map_congr_left
    intro d hd
    have hlt : d < 32 := mem_natToDigits_lt 32 (by norm_num) 26 _ d hd
    simp [Function.comp, b32_roundtrip d hlt]
  rw [hmap, List.map_id, digitsToNat_natToDigits]
  exact Nat.mod_eq_of_lt (lt_trans (uuidv7_lt ..) (by norm_num))

theorem extractTimestamp_create (tMs randA randB : Nat) (ht : tMs < 2 ^ 48) :
    (RegistrationId.create tMs randA randB).extractTimestamp = tMs := by
  unfold RegistrationId.extractTimestamp
  rw [toUUIDNat_create]
  set N := uuidv7 tMs randA randB with hN
  unfold uuidStr
  set h := (natToDigits 16 32 N).map hexChar with hh
  have hlen : h.length = 32 := by rw [hh, List.length_map, length_natToDigits]
  have hlen8 : (h.take 8).length = 8 := by rw [List.length_take]; omega
  have hlen4 : ((h.drop 8).take 4).length = 4 := by
    rw [List.length_take, List.length_drop]; omega
  -- take 13 keeps the first hex octet, a hyphen, and the next four hex digits
  have htake13 : (withDashes h).take 13 = h.take 8 ++ '-' :: (h.drop 8).take 4 := by
    unfold withDashes
    apply List.take_left'
    simp [hlen8, hlen4]
  rw [htake13]
  -- the first hyphen is removed
  have hnodash : '-' ∉ h.take 8 := by
    intro hmem
    have hmem' : '-' ∈ h := List.mem_of_mem_take hmem
    rw [hh] at hmem'
    obtain ⟨d, hd, hdc⟩ := List.mem_map.mp hmem'
    exact hexChar_ne_dash d (mem_natToDigits_lt 16 (by norm_num) 32 N d hd) hdc
  rw [jsReplaceFirst_append '-' _ _ hnodash]
  -- identify the remaining 12 characters as the top 12 hex digits
  have htake8 : h.take 8 = (natToDigits 16 8 (N / 16 ^ 24)).map hexChar := by
    rw [hh, ← List.map_take, natToDigits_take 16 8 32 N (by norm_num)]
  have htake4 : (h.drop 8).take 4 = (natToDigits 16 4 (N / 16 ^ 20)).map hexChar := by
    rw [hh, ← List.map_drop, ← List.map_take, natToDigits_drop 16 8 32 N,
      natToDigits_take 16 4 24 N (by norm_num)]
  rw [htake8, htake4, ← List.map_append]
  set ds := natToDigits 16 8 (N / 16 ^ 24) ++ natToDigits 16 4 (N / 16 ^ 20) with hds
  have hdslt : ∀ d ∈ ds, d < 16 := by
    intro d hd
    rw [hds] at hd
    rcases List.mem_append.mp hd with hd' | hd'
    · exact mem_natToDigits_lt 16 (by norm_num) 8 _ d hd'
    · exact mem_natToDigits_lt 16 (by norm_num) 4 _ d hd'
  unfold parseIntHex
  have hallhex : ∀ c ∈ ds.map hexChar, ((hexVal c).isSome : Bool) := by
    intro c hc
    obtain ⟨d, hd, rfl⟩ := List.mem_map.mp hc
    rw [hex_roundtrip d (hdslt d hd)]
    rfl
  rw [List.takeWhile_eq_self_iff.mpr hallhex, List.map_map]
  have hmap2 : ds.map ((fun c => (hexVal c).getD 0) ∘ hexChar) = ds.map id := by
    apply List.map_congr_left
    intro d hd
    simp [Function.comp, hex_roundtrip d (hdslt d hd)]
  rw [hmap2, List.map_id, hds, digitsToNat_append, digitsToNat_natToDigits,
    digitsToNat_natToDigits, length_natToDigits]
  -- arithmetic: reassemble the top 48 bits
  have hdiv : N / 16 ^ 24 = N / 16 ^ 20 / 16 ^ 4 := by
    rw [Nat.div_div_eq_div_mul, ← pow_add]
  rw [hdiv]
  have hmul : (N / 16 ^ 20) % (16 ^ 4 * 16 ^ 8)
      = N / 16 ^ 20 % 16 ^ 4 + 16 ^ 4 * (N / 16 ^ 20 / 16 ^ 4 % 16 ^ 8) := Nat.mod_mul
  have h1612 : (16 : Nat) ^ 4 * 16 ^ 8 = 16 ^ 12 := by norm_num
  rw [h1612] at hmul
  have hQ : N / 16 ^ 20 = tMs := by
    have h80 : (16 : Nat) ^ 20 = 2 ^ 80 := by norm_num
    rw [h80, hN, uuidv7_div, Nat.mod_eq_of_lt ht]
  rw [hQ] at hmul ⊢
  have ht12 : tMs % 16 ^ 12 = tMs := Nat.mod_eq_of_lt (lt_of_lt_of_le ht (by norm_num))
  omega

/-- C9: an id created at wall-clock time `t` ms (within the 48-bit embedded
timestamp range) extracts exactly `t`; two ids created 1 ms apart extract
values differing by exactly 1, whatever the random fields. -/
theorem regid_extract_timestamp (tMs randA randB randA2 randB2 : Nat)
    (ht : tMs + 1 < 2 ^ 48) :
    (RegistrationId.create tMs randA randB).extractTimestamp = tMs ∧
    (RegistrationId.create (tMs + 1) randA2 randB2).extractTimestamp = tMs + 1 ∧
    (RegistrationId.create (tMs + 1) randA2 randB2).extractTimestamp
      - (RegistrationId.create tMs randA randB).extractTimestamp = 1 := by
  have h1 := extractTimestamp_create tMs randA randB (by omega)
  have h2 := extractTimestamp_create (tMs + 1) randA2 randB2 ht
  exact ⟨h1, h2, by omega⟩

/-- Witness for `regid_extract_timestamp` at 2021-07-15T00:00:00.000Z
(1626307200000 ms). -/
theorem regid_extract_timestamp_witness :
    (RegistrationId.create 1626307200000 5 9).extractTimestamp = 1626307200000 ∧
    (RegistrationId.create 1626307200001 3 4).extractTimestamp = 1626307200001 := by
  have h := regid_extract_timestamp 1626307200000 5 9 3 4 (by norm_num)
  exact ⟨h.1, by simpa using h.2.1⟩

/- ### RegistrationId.parse failure causes -/

theorem afterLast_underscore (t suf : JStr) (hs : '_' ∉ suf) :
    afterLast '_' (t ++ '_' :: suf) = suf := by
  unfold afterLast
  rw [List.reverse_append, List.reverse_cons, List.append_assoc]
  show ((suf.reverse ++ '_' :: t.reverse).takeWhile (· ≠ '_')).reverse = suf
  have hall : ∀ x ∈ suf.reverse, (fun c => decide (c ≠ '_')) x = true := by
    intro x hx
    simp only [List.mem_reverse] at hx
    simp only [decide_eq_true_eq]
    exact fun hx' => hs (hx' ▸ hx)
  rw [List.takeWhile_append_of_pos hall, List.takeWhile_cons_of_neg (by simp)]
  simp

theorem beforeLast_underscore (t suf : JStr) (hs : '_' ∉ suf) :
    beforeLast '_' (t ++ '_' :: suf) = t := by
  unfold beforeLast
  rw [List.reverse_append, List.reverse_cons, List.append_assoc]
  show (((suf.reverse ++ '_' :: t.reverse).dropWhile (· ≠ '_')).drop 1).reverse = t
  have hall : ∀ x ∈ suf.reverse, (fun c => decide (c ≠ '_')) x = true := by
    intro x hx
    simp only [List.mem_reverse] at hx
    simp only [decide_eq_true_eq]
    exact fun hx' => hs (hx' ▸ hx)
  rw [List.dropWhile_append_of_pos hall, List.dropWhile_cons_of_neg (by simp)]
  simp

/-- C8: `RegistrationId.parse` rejects a `reg_`-prefixed string whose suffix
has the wrong length with an `Invalid length` cause, rejects one whose
26-character suffix contains a character outside the base32 alphabet with a
distinct character-set cause, rejects a string with a well-formed non-`reg`
type prefix and valid suffix with the `prefix must be "reg"` cause, and the
wrong-length and wrong-prefix causes are distinguishable — all inside the
`InvalidRegistrationId` error class. -/
theorem regid_parse_causes :
    (∀ suf : JStr, '_' ∉ suf → suf.length ≠ 26 →
      RegistrationId.parse (jstr "reg" ++ '_' :: suf)
        = .error (.invalidRegistrationId "Invalid length")) ∧
    (∀ suf : JStr, '_' ∉ suf → suf.length = 26 → (¬ ∀ c ∈ suf, (b32Val c).isSome) →
      RegistrationId.parse (jstr "reg" ++ '_' :: suf)
        = .error (.invalidRegistrationId "Invalid base32 character")) ∧
    (∀ tag suf : JStr, validTag tag → tag ≠ jstr "reg" → '_' ∉ suf →
      validateSuffix suf = .ok () →
      RegistrationId.parse (tag ++ '_' :: suf)
        = .error (.invalidRegistrationId "Registration ID prefix must be \"reg\"")) ∧
    (JsError.invalidRegistrationId "Invalid length"
      ≠ JsError.invalidRegistrationId "Registration ID prefix must be \"reg\"") := by
  have hmem : ∀ (t suf : JStr), '_' ∈ t ++ '_' :: suf := by
    intro t suf
    simp
  refine ⟨?_, ?_, ?_, by decide⟩
  · intro suf hu hlen
    unfold RegistrationId.parse typeIdFromString
    rw [if_pos (hmem (jstr "reg") suf), beforeLast_underscore _ _ hu,
      afterLast_underscore _ _ hu]
    have hvt : (validTag (jstr "reg") = false) = False := by simp [validTag, jstr]
    rw [if_neg (by simp [validTag, jstr])]
    unfold validateSuffix
    rw [if_pos hlen]
  · intro suf hu hlen hbad
    unfold RegistrationId.parse typeIdFromString
    rw [if_pos (hmem (jstr "reg") suf), beforeLast_underscore _ _ hu,
      afterLast_underscore _ _ hu]
    rw [if_neg (by simp [validTag, jstr])]
    unfold validateSuffix
    rw [if_neg (by omega), if_pos (by simpa using hbad)]
  · intro tag suf hvt hne hu hok
    have hut : '_' ∉ tag := by
      intro hm
      have := List.all_eq_true.mp ((Bool.and_eq_true _ _).mp hvt).2 _ hm
      simp at this
    unfold RegistrationId.parse typeIdFromString
    rw [if_pos (hmem tag suf), beforeLast_underscore _ _ hu,
      afterLast_underscore _ _ hu, if_neg (by simp [hvt]), hok]
    simp only []
    rw [if_pos hne]

/-- Witness for `regid_parse_causes`: a 16-character suffix
(`reg_1234567890abcdef`, wrong length), a 26-character suffix containing `u`
(not in the alphabet), and a valid suffix under the prefix `foo`. -/
theorem regid_parse_causes_witness :
    RegistrationId.parse (jstr "reg" ++ '_' :: jstr "1234567890abcdef")
      = .error (.invalidRegistrationId "Invalid length") ∧
    RegistrationId.parse (jstr "reg" ++ '_' :: jstr "u123456789012345678901234z")
      = .error (.invalidRegistrationId "Invalid base32 character") ∧
    RegistrationId.parse (jstr "foo" ++ '_' :: jstr "0123456789abcdefghjkmnpqrs")
      = .error (.invalidRegistrationId "Registration ID prefix must be \"reg\"") := by
  refine ⟨regid_parse_causes.1 _ (by decide) (by decide),
    regid_parse_causes.2.1 _ (by decide) (by decide) (by decide),
    regid_parse_causes.2.2.1 _ _ (by decide) (by decide) (by decide) rfl⟩

/- ### SHA-256 (the fixed 256-bit hash consumed via @web5/crypto Sha256) -/

/-- Modelled from the spec: FIPS 180-4 SHA-256 over a byte sequence, the
fixed 256-bit hash behind `Sha256.digest`.  Words are naturals reduced
mod `2^32`. -/
def w32 (x : Nat) : Nat := x % 2 ^ 32

def rotr32 (n x : Nat) : Nat := (x / 2 ^ n) + (x % 2 ^ n) * 2 ^ (32 - n)

def shaCh (e f g : Nat) : Nat := Nat.xor (Nat.land e f) (Nat.land (2 ^ 32 - 1 - e) g)

def shaMaj (a b c : Nat) : Nat :=
  Nat.xor (Nat.xor (Nat.land a b) (Nat.land a c)) (Nat.land b c)

def bigSigma0 (x : Nat) : Nat := Nat.xor (Nat.xor (rotr32 2 x) (rotr32 13 x)) (rotr32 22 x)

def bigSigma1 (x : Nat) : Nat := Nat.xor (Nat.xor (rotr32 6 x) (rotr32 11 x)) (rotr32 25 x)

def smallSigma0 (x : Nat) : Nat := Nat.xor (Nat.xor (rotr32 7 x) (rotr32 18 x)) (x / 2 ^ 3)

def smallSigma1 (x : Nat) : Nat := Nat.xor (Nat.xor (rotr32 17 x) (rotr32 19 x)) (x / 2 ^ 10)

def shaK : List Nat :=
  [1116352408, 1899447441, 3049323471, 3921009573, 961987163, 1508970993,
   2453635748, 2870763221, 3624381080, 310598401, 607225278, 1426881987,
   1925078388, 2162078206, 2614888103, 3248222580, 3835390401, 4022224774,
   264347078, 604807628, 770255983, 1249150122, 1555081692, 1996064986,
   2554220882, 2821834349, 2952996808, 3210313671, 3336571891, 3584528711,
   113926993, 338241895, 666307205, 773529912, 1294757372, 1396182291,
   1695183700, 1986661051, 2177026350, 2456956037, 2730485921, 2820302411,
   3259730800, 3345764771, 3516065817, 3600352804, 4094571909, 275423344,
   430227734, 506948616, 659060556, 883997877, 958139571, 1322822218,
   1537002063, 1747873779, 1955562222, 2024104815, 2227730452, 2361852424,
   2428436474, 2756734187, 3204031479, 3329325298]

/-- The eight SHA-256 working variables / hash values. -/
structure Sha8 where
  a : Nat
  b : Nat
  c : Nat
  d : Nat
  e : Nat
  f : Nat
  g : Nat
  h : Nat

def shaInit : Sha8 :=
  ⟨0x6a09e667, 0xbb67ae85, 0x3c6ef372, 0xa54ff53a,
   0x510e527f, 0x9b05688c, 0x1f83d9ab, 0x5be0cd19⟩

/-- One compression round for schedule word `w` and constant `k`. -/
def shaRound (st : Sha8) (wk : Nat × Nat) : Sha8 :=
  let t1 := w32 (st.h + bigSigma1 st.e + shaCh st.e st.f st.g + wk.2 + wk.1)
  let t2 := w32 (bigSigma0 st.a + shaMaj st.a st.b st.c)
  ⟨w32 (t1 + t2), st.a, st.b, st.c, w32 (st.d + t1), st.e, st.f, st.g⟩

/-- Big-endian 32-bit words from a byte list. -/
def toWords : List Nat → List Nat
  | b0 :: b1 :: b2 :: b3 :: rest => (((b0 * 256 + b1) * 256 + b2) * 256 + b3) :: toWords rest
  | _ => []

/-- Extend the message schedule: `acc` holds the schedule so far, newest
word first. -/
def schedStep (acc : List Nat) : Nat :=
  w32 (smallSigma1 (acc.getD 1 0) + acc.getD 6 0 + smallSigma0 (acc.getD 14 0) + acc.getD 15 0)

def schedule : Nat → List Nat → List Nat
  | 0, acc => acc.reverse
  | n + 1, acc => schedule n (schedStep acc :: acc)

/-- Compress one 64-byte block into the hash state. -/
def shaCompress (st : Sha8) (blk : List Nat) : Sha8 :=
  let ws := schedule 48 (toWords blk).reverse
  let r := (ws.zip shaK).foldl shaRound st
  ⟨w32 (st.a + r.a), w32 (st.b + r.b), w32 (st.c + r.c), w32 (st.d + r.d),
   w32 (st.e + r.e), w32 (st.f + r.f), w32 (st.g + r.g), w32 (st.h + r.h)⟩

def chunk64Go : Nat → List Nat → List (List Nat)
  | _, [] => []
  | 0, _ :: _ => []
  | fuel + 1, b :: l => (b :: l).take 64 :: chunk64Go fuel ((b :: l).drop 64)

/-- Split a byte list into 64-byte blocks (fuel-driven so that it evaluates
by kernel reduction; the fuel `l.length` always suffices). -/
def chunk64 (l : List Nat) : List (List Nat) := chunk64Go l.length l

/-- SHA-256 padding: `0x80`, zeros to 56 mod 64, 8-byte big-endian bit
length. -/
def shaPad (msg : List Nat) : List Nat :=
  msg ++ 0x80 :: List.replicate ((119 - msg.length % 64) % 64) 0
    ++ natToDigits 256 8 (msg.length * 8)

def sha256 (msg : List Nat) : List Nat :=
  let fin := (chunk64 (shaPad msg)).foldl shaCompress shaInit
  natToDigits 256 4 fin.a ++ natToDigits 256 4 fin.b ++ natToDigits 256 4 fin.c
    ++ natToDigits 256 4 fin.d ++ natToDigits 256 4 fin.e ++ natToDigits 256 4 fin.f
    ++ natToDigits 256 4 fin.g ++ natToDigits 256 4 fin.h

theorem sha256_length (msg : List Nat) : (sha256 msg).length = 32 := by
  unfold sha256
  simp [length_natToDigits]

/- ### JSON value model (payloads of the canonical digest engine) -/

/-- A JSON value: the serializable string-keyed payloads accepted by
`Crypto.digest` and produced by `JSON.parse`.  Numbers are modelled as
integers (every number appearing in this library is one). -/
inductive Json where
  | null : Json
  | bool (b : Bool) : Json
  | num (n : Int) : Json
  | str (s : JStr) : Json
  | arr (es : List Json) : Json
  | obj (kvs : List (JStr × Json)) : Json

def lbrace : Char := Char.ofNat 123

def rbrace : Char := Char.ofNat 125

/-- JSON string-character escaping (shared by `JSON.stringify` and RFC 8785):
quote and backslash get two-character escapes, the five short control escapes
apply, any other control character becomes `\u00XX`, everything else is
literal. -/
def escChar (c : Char) : JStr :=
  if c = '"' then ['\\', '"']
  else if c = '\\' then ['\\', '\\']
  else if c = Char.ofNat 8 then ['\\', 'b']
  else if c = Char.ofNat 9 then ['\\', 't']
  else if c = Char.ofNat 10 then ['\\', 'n']
  else if c = Char.ofNat 12 then ['\\', 'f']
  else if c = Char.ofNat 13 then ['\\', 'r']
  else if c.toNat < 32 then ['\\', 'u', '0', '0', hexChar (c.toNat / 16), hexChar (c.toNat % 16)]
  else [c]

def serStr (s : JStr) : JStr := '"' :: (s.map escChar).flatten ++ ['"']

mutual

/-- `JSON.stringify` (also the canonical serializer after key sorting):
no insignificant whitespace, `,` and `:` separators, object members in the
list's order. -/
def serJson : Json → JStr
  | .null => jstr "null"
  | .bool true => jstr "true"
  | .bool false => jstr "false"
  | .num n => jstr (toString n)
  | .str s => serStr s
  | .arr es => '[' :: serList es ++ [']']
  | .obj kvs => lbrace :: serMembers kvs ++ [rbrace]

def serList : List Json → JStr
  | [] => []
  | [e] => serJson e
  | e :: e2 :: es => serJson e ++ ',' :: serList (e2 :: es)

def serMembers : List (JStr × Json) → JStr
  | [] => []
  | [(k, v)] => serStr k ++ ':' :: serJson v
  | (k, v) :: kv2 :: kvs => serStr k ++ ':' :: serJson v ++ ',' :: serMembers (kv2 :: kvs)

end

/- ### Key ordering and canonicalization (RFC 8785, @web5/crypto canonicalize) -/

/-- Lexicographic comparison of two strings by character code. -/
def jstrLe : JStr → JStr → Bool
  | [], _ => true
  | _ :: _, [] => false
  | x :: xs, y :: ys =>
    if x.toNat < y.toNat then true
    else if y.toNat < x.toNat then false
    else jstrLe xs ys

/-- The sort relation on object members: compare keys. -/
def keyRel (a b : JStr × Json) : Prop := jstrLe a.1 b.1 = true

instance : DecidableRel keyRel := fun a b => by
  unfold keyRel
  infer_instance

def sortKvs (kvs : List (JStr × Json)) : List (JStr × Json) := List.insertionSort keyRel kvs

mutual

/-- Recursively sort every object's members by key (the tree-level content of
RFC 8785 canonicalization). -/
def normJson : Json → Json
  | .null => .null
  | .bool b => .bool b
  | .num n => .num n
  | .str s => .str s
  | .arr es => .arr (normList es)
  | .obj kvs => .obj (sortKvs (normMembers kvs))

def normList : List Json → List Json
  | [] => []
  | e :: es => normJson e :: normList es

def normMembers : List (JStr × Json) → List (JStr × Json)
  | [] => []
  | (k, v) :: kvs => (k, normJson v) :: normMembers kvs

end

/-- `canonicalize` (from @web5/crypto, per RFC 8785): serialize with object
keys sorted lexicographically at every nesting level, no insignificant
whitespace. -/
def canonicalize (p : Json) : JStr := serJson (normJson p)

/-- UTF-8 encoding of a string (`Convert.string(...).toUint8Array()`). -/
def utf8Encode : JStr → List Nat
  | [] => []
  | c :: cs =>
    (if c.toNat < 0x80 then [c.toNat]
     else if c.toNat < 0x800 then
       [0xC0 + c.toNat / 64, 0x80 + c.toNat % 64]
     else if c.toNat < 0x10000 then
       [0xE0 + c.toNat / 4096, 0x80 + c.toNat / 64 % 64, 0x80 + c.toNat % 64]
     else
       [0xF0 + c.toNat / 262144, 0x80 + c.toNat / 4096 % 64,
        0x80 + c.toNat / 64 % 64, 0x80 + c.toNat % 64]) ++ utf8Encode cs

/-- `Crypto.digest` (src/crypto.ts): canonicalize the payload, UTF-8 encode,
SHA-256; return the raw digest bytes. -/
def Crypto.digest (payload : Json) : List Nat := sha256 (utf8Encode (canonicalize payload))

/- ### Well-formedness: JavaScript objects have no duplicate keys -/

def nodupKeys : List (JStr × Json) → Bool
  | [] => true
  | (k, _) :: kvs => !((kvs.map (fun kv => kv.1)).contains k) && nodupKeys kvs

mutual

def wfJson : Json → Bool
  | .null => true
  | .bool _ => true
  | .num _ => true
  | .str _ => true
  | .arr es => wfList es
  | .obj kvs => nodupKeys kvs && wfMembers kvs

def wfList : List Json → Bool
  | [] => true
  | e :: es => wfJson e && wfList es

def wfMembers : List (JStr × Json) → Bool
  | [] => true
  | (_, v) :: kvs => wfJson v && wfMembers kvs

end

/- ### "Differ only in object key order, at any nesting level" -/

mutual

/-- Two JSON values are related when they are equal up to reordering of
object members, recursively; sequence element order must agree. -/
inductive KeyReorder : Json → Json → Prop
  | null : KeyReorder .null .null
  | bool (b : Bool) : KeyReorder (.bool b) (.bool b)
  | num (n : Int) : KeyReorder (.num n) (.num n)
  | str (s : JStr) : KeyReorder (.str s) (.str s)
  | arr {es fs : List Json} : KRList es fs → KeyReorder (.arr es) (.arr fs)
  | obj {kvs kvs₁ kvs₂ : List (JStr × Json)} :
      KRMembers kvs kvs₁ → kvs₁.Perm kvs₂ → KeyReorder (.obj kvs) (.obj kvs₂)

inductive KRList : List Json → List Json → Prop
  | nil : KRList [] []
  | cons {e f : Json} {es fs : List Json} :
      KeyReorder e f → KRList es fs → KRList (e :: es) (f :: fs)

inductive KRMembers : List (JStr × Json) → List (JStr × Json) → Prop
  | nil : KRMembers [] []
  | cons (k : JStr) {v w : Json} {kvs kvs' : List (JStr × Json)} :
      KeyReorder v w → KRMembers kvs kvs' → KRMembers ((k, v) :: kvs) ((k, w) :: kvs')

end

/- ### Ordering lemmas for the canonical key sort -/

theorem char_toNat_inj {a b : Char} (h : a.toNat = b.toNat) : a = b :=
  Char.ext (UInt32.toNat.inj h)

theorem jstrLe_total : ∀ a b : JStr, jstrLe a b = true ∨ jstrLe b a = true
  | [], _ => by left; rfl
  | _ :: _, [] => by right; rfl
  | x :: xs, y :: ys => by
    unfold jstrLe
    rcases Nat.lt_trichotomy x.toNat y.toNat with hlt | heq | hgt
    · left; rw [if_pos hlt]
    · rw [if_neg (by omega), if_neg (by omega), if_neg (by omega), if_neg (by omega)]
      exact jstrLe_total xs ys
    · right; rw [if_pos hgt]

theorem jstrLe_trans : ∀ a b c : JStr,
    jstrLe a b = true → jstrLe b c = true → jstrLe a c = true
  | [], _, _, _, _ => rfl
  | x :: xs, [], c, hab, _ => by simp [jstrLe] at hab
  | x :: xs, y :: ys, [], _, hbc => by simp [jstrLe] at hbc
  | x :: xs, y :: ys, z :: zs, hab, hbc => by
    unfold jstrLe at hab hbc ⊢
    by_cases h1 : x.toNat < y.toNat <;> by_cases h2 : y.toNat < z.toNat
    · rw [if_pos (by omega)]
    · rw [if_neg h2] at hbc
      by_cases h3 : z.toNat < y.toNat
      · rw [if_pos h3] at hbc; exact absurd hbc (by simp)
      · rw [if_pos (by omega)]
    · rw [if_neg h1] at hab
      by_cases h3 : y.toNat < x.toNat
      · rw [if_pos h3] at hab; exact absurd hab (by simp)
      · rw [if_pos (by omega)]
    · rw [if_neg h1] at hab
      rw [if_neg h2] at hbc
      by_cases h3 : y.toNat < x.toNat
      · rw [if_pos h3] at hab; exact absurd hab (by simp)
      by_cases h4 : z.toNat < y.toNat
      · rw [if_pos h4] at hbc; exact absurd hbc (by simp)
      rw [if_neg h3] at hab
      rw [if_neg h4] at hbc
      rw [if_neg (by omega), if_neg (by omega)]
      exact jstrLe_trans xs ys zs hab hbc

theorem jstrLe_antisymm : ∀ a b : JStr,
    jstrLe a b = true → jstrLe b a = true → a = b
  | [], [], _, _ => rfl
  | [], _ :: _, _, hba => by simp [jstrLe] at hba
  | _ :: _, [], hab, _ => by simp [jstrLe] at hab
  | x :: xs, y :: ys, hab, hba => by
    unfold jstrLe at hab hba
    by_cases h1 : x.toNat < y.toNat
    · rw [if_neg (by omega)] at hba
      rw [if_pos h1] at hba
      exact absurd hba (by simp)
    by_cases h2 : y.toNat < x.toNat
    · rw [if_neg h1, if_pos h2] at hab
      exact absurd hab (by simp)
    rw [if_neg h1, if_neg h2] at hab
    rw [if_neg h2, if_neg h1] at hba
    have hx : x = y := char_toNat_inj (by omega)
    rw [hx, jstrLe_antisymm xs ys hab hba]

instance : IsTotal (JStr × Json) keyRel :=
  ⟨fun a b => jstrLe_total a.1 b.1⟩

instance : IsTrans (JStr × Json) keyRel :=
  ⟨fun a b c => jstrLe_trans a.1 b.1 c.1⟩

/-- A permutation of members with no duplicate keys has a unique sorted
arrangement. -/
theorem sorted_keyRel_perm_eq : ∀ (l₁ l₂ : List (JStr × Json)), l₁.Perm l₂ →
    l₁.Sorted keyRel → l₂.Sorted keyRel →
    (l₁.map (fun kv => kv.1)).Nodup → l₁ = l₂
  | [], l₂, hp, _, _, _ => hp.nil_eq
  | a :: l₁, [], hp, _, _, _ => by
    have := hp.length_eq
    simp at this
  | a :: l₁, b :: l₂, hp, hs₁, hs₂, hnd => by
    have hab : a = b := by
      by_contra hne
      have hamem : a ∈ b :: l₂ := hp.mem_iff.mp (List.mem_cons_self a l₁)
      have hbmem : b ∈ a :: l₁ := hp.symm.mem_iff.mp (List.mem_cons_self b l₂)
      have ha2 : a ∈ l₂ := by
        rcases List.mem_cons.mp hamem with h | h
        · exact absurd h hne
        · exact h
      have hb2 : b ∈ l₁ := by
        rcases List.mem_cons.mp hbmem with h | h
        · exact absurd h.symm hne
        · exact h
      have hab' : keyRel a b := (List.sorted_cons.mp hs₁).1 b hb2
      have hba' : keyRel b a := (List.sorted_cons.mp hs₂).1 a ha2
      have hk : a.1 = b.1 := jstrLe_antisymm a.1 b.1 hab' hba'
      have hnk : a.1 ∉ l₁.map (fun kv => kv.1) := (List.nodup_cons.mp hnd).1
      exact hnk (hk ▸ List.mem_map_of_mem (fun kv => kv.1) hb2)
    subst hab
    have htail := sorted_keyRel_perm_eq l₁ l₂ hp.cons_inv
      (List.sorted_cons.mp hs₁).2 (List.sorted_cons.mp hs₂).2 (List.nodup_cons.mp hnd).2
    rw [htail]

theorem sortKvs_perm_eq (l₁ l₂ : List (JStr × Json)) (hp : l₁.Perm l₂)
    (hnd : (l₁.map (fun kv => kv.1)).Nodup) : sortKvs l₁ = sortKvs l₂ := by
  unfold sortKvs
  apply sorted_keyRel_perm_eq
  · exact (List.perm_insertionSort keyRel l₁).trans (hp.trans (List.perm_insertionSort keyRel l₂).symm)
  · exact List.sorted_insertionSort keyRel l₁
  · exact List.sorted_insertionSort keyRel l₂
  · exact ((List.perm_insertionSort keyRel l₁).map (fun kv => kv.1)).nodup_iff.mpr hnd

theorem normMembers_eq_map (kvs : List (JStr × Json)) :
    normMembers kvs = kvs.map (fun kv => (kv.1, normJson kv.2)) := by
  induction kvs with
  | nil => rfl
  | cons kv kvs ih =>
    cases kv
    simp [normMembers, ih]

theorem keys_normMembers (kvs : List (JStr × Json)) :
    (normMembers kvs).map (fun kv => kv.1) = kvs.map (fun kv => kv.1) := by
  rw [normMembers_eq_map, List.map_map]
  rfl

theorem contains_iff_mem {α : Type} [BEq α] [LawfulBEq α] {a : α} {l : List α} :
    l.contains a = true ↔ a ∈ l := by
  simp [List.contains_eq_any_beq]

theorem nodupKeys_iff (kvs : List (JStr × Json)) :
    nodupKeys kvs = true ↔ (kvs.map (fun kv => kv.1)).Nodup := by
  induction kvs with
  | nil => simp [nodupKeys]
  | cons kv kvs ih =>
    cases kv with
    | mk k v =>
      simp only [nodupKeys, Bool.and_eq_true, Bool.not_eq_true', List.map, List.nodup_cons]
      constructor
      · rintro ⟨hc, hn⟩
        refine ⟨?_, ih.mp hn⟩
        intro hmem
        rw [← contains_iff_mem] at hmem
        rw [hmem] at hc
        exact Bool.false_ne_true hc.symm
      · rintro ⟨hnm, hn⟩
        refine ⟨?_, ih.mpr hn⟩
        by_contra hc
        have : (kvs.map (fun kv => kv.1)).contains k = true := by
          cases hcc : (kvs.map (fun kv => kv.1)).contains k
          · exact absurd hcc hc
          · rfl
        exact hnm (contains_iff_mem.mp this)

mutual

theorem krNorm {p q : Json} (h : KeyReorder p q) (hw : wfJson p = true) :
    normJson p = normJson q := by
  match p, q, h with
  | _, _, .null => rfl
  | _, _, .bool b => rfl
  | _, _, .num n => rfl
  | _, _, .str s => rfl
  | _, _, @KeyReorder.arr es fs hl =>
    have hw' : wfList es = true := by simpa [wfJson] using hw
    simp only [normJson]
    exact congrArg Json.arr (krNormList hl hw')
  | _, _, @KeyReorder.obj kvs kvs₁ kvs₂ hm hp =>
    have hw' : nodupKeys kvs = true ∧ wfMembers kvs = true := by
      simpa [wfJson, Bool.and_eq_true] using hw
    have hmem := krNormMembers hm hw'.2
    simp only [normJson]
    congr 1
    rw [hmem.1]
    apply sortKvs_perm_eq
    · rw [normMembers_eq_map, normMembers_eq_map]
      exact hp.map _
    · rw [keys_normMembers, ← hmem.2]
      exact (nodupKeys_iff kvs).mp hw'.1

theorem krNormList {es fs : List Json} (h : KRList es fs) (hw : wfList es = true) :
    normList es = normList fs := by
  match es, fs, h with
  | _, _, .nil => rfl
  | _, _, @KRList.cons e f es fs he hes =>
    have hw' : wfJson e = true ∧ wfList es = true := by
      simpa [wfList, Bool.and_eq_true] using hw
    simp only [normList]
    rw [krNorm he hw'.1, krNormList hes hw'.2]

theorem krNormMembers {kvs kvs' : List (JStr × Json)} (h : KRMembers kvs kvs')
    (hw : wfMembers kvs = true) :
    normMembers kvs = normMembers kvs' ∧
      kvs.map (fun kv => kv.1) = kvs'.map (fun kv => kv.1) := by
  match kvs, kvs', h with
  | _, _, .nil => exact ⟨rfl, rfl⟩
  | _, _, @KRMembers.cons k v w kvs kvs' hv hkvs =>
    have hw' : wfJson v = true ∧ wfMembers kvs = true := by
      simpa [wfMembers, Bool.and_eq_true] using hw
    have ih := krNormMembers hkvs hw'.2
    simp only [normMembers, List.map]
    rw [krNorm hv hw'.1, ih.1]
    exact ⟨rfl, by rw [ih.2]⟩

end

/-- C2: `Crypto.digest` returns exactly 32 raw bytes — the SHA-256 of the
canonicalized payload, pinned by the repository's own known-good vector for
`{hello: "world"}` — and for every pair of payloads that differ only in
object key order at any nesting level (with JavaScript's no-duplicate-keys
invariant) the digests are byte-identical, while reordering a sequence can
change the digest. -/
theorem crypto_digest_canonical :
    (∀ p : Json, (Crypto.digest p).length = 32) ∧
    (Crypto.digest (.obj [(jstr "hello", .str (jstr "world"))])
      = [147, 162, 57, 113, 169, 20, 229, 234, 203, 240, 168, 210, 81, 84, 205, 163,
         9, 195, 193, 199, 47, 187, 153, 20, 212, 124, 96, 243, 203, 104, 21, 136]) ∧
    (∀ p q : Json, KeyReorder p q → wfJson p = true →
      Crypto.digest p = Crypto.digest q) ∧
    (Crypto.digest (.obj [(jstr "a", .arr [.num 1, .num 2])])
      ≠ Crypto.digest (.obj [(jstr "a", .arr [.num 2, .num 1])])) := by
  refine ⟨fun p => sha256_length _, by decide, ?_, by decide⟩
  intro p q h hw
  unfold Crypto.digest canonicalize
  rw [krNorm h hw]

/-- Witness for `crypto_digest_canonical`: `{a: 1, b: 2}` and `{b: 2, a: 1}`
digest identically. -/
theorem crypto_digest_canonical_witness :
    Crypto.digest (.obj [(jstr "a", .num 1), (jstr "b", .num 2)])
      = Crypto.digest (.obj [(jstr "b", .num 2), (jstr "a", .num 1)]) :=
  crypto_digest_canonical.2.2.1 _ _
    (KeyReorder.obj
      (KRMembers.cons (jstr "a") (KeyReorder.num 1)
        (KRMembers.cons (jstr "b") (KeyReorder.num 2) KRMembers.nil))
      (List.Perm.swap (jstr "b", Json.num 2) (jstr "a", Json.num 1) []))
    (by decide)

/- ### JavaScript String.prototype.split with a single-character separator -/

def jsSplit (sep : Char) : JStr → List JStr
  | [] => [[]]
  | c :: cs =>
    if c = sep then [] :: jsSplit sep cs
    else
      match jsSplit sep cs with
      | [] => [[c]]
      | s :: rest => (c :: s) :: rest

theorem jsSplit_ne_nil (sep : Char) : ∀ s : JStr, jsSplit sep s ≠ []
  | [] => by simp [jsSplit]
  | c :: cs => by
    unfold jsSplit
    by_cases hc : c = sep
    · rw [if_pos hc]; simp
    · rw [if_neg hc]
      rcases h : jsSplit sep cs with _ | ⟨s, rest⟩ <;> simp

theorem jsSplit_no_sep (sep : Char) : ∀ s : JStr, sep ∉ s → jsSplit sep s = [s]
  | [], _ => rfl
  | c :: cs, h => by
    simp only [List.mem_cons, not_or] at h
    unfold jsSplit
    rw [if_neg (fun hc => h.1 hc.symm), jsSplit_no_sep sep cs h.2]

theorem jsSplit_append (sep : Char) : ∀ (a b : JStr), sep ∉ a →
    jsSplit sep (a ++ sep :: b) = a :: jsSplit sep b
  | [], b, _ => by simp [jsSplit]
  | c :: cs, b, h => by
    simp only [List.mem_cons, not_or] at h
    have ih := jsSplit_append sep cs b h.2
    show (if c = sep then [] :: jsSplit sep (cs ++ sep :: b)
        else match jsSplit sep (cs ++ sep :: b) with
          | [] => [[c]]
          | s :: rest => (c :: s) :: rest) = (c :: cs) :: jsSplit sep b
    rw [if_neg (fun hc => h.1 hc.symm), ih]

theorem jsSplit_headD (sep : Char) : ∀ s : JStr,
    (jsSplit sep s).getD 0 [] = s.takeWhile (· ≠ sep)
  | [] => rfl
  | c :: cs => by
    unfold jsSplit
    by_cases hc : c = sep
    · rw [if_pos hc]
      subst hc
      simp
    · rw [if_neg hc]
      have ih := jsSplit_headD sep cs
      rcases h : jsSplit sep cs with _ | ⟨s, rest⟩
      · exact absurd h (jsSplit_ne_nil sep cs)
      · rw [h] at ih
        simp only [List.getD_cons_zero] at ih ⊢
        rw [List.takeWhile_cons_of_pos (by simpa using hc), ih]

/- ### Base64url (no padding), as used by @web5/common Convert -/

def b64Alphabet : JStr :=
  jstr "ABCDEFGHIJKLMNOPQRSTUVWXYZabcdefghijklmnopqrstuvwxyz0123456789-_"

def b64Char (d : Nat) : Char := b64Alphabet.getD d '?'

def b64CharVal (c : Char) : Option Nat := b64Alphabet.findIdx? (· = c)

def b64UrlEncode : List Nat → JStr
  | [] => []
  | [a] => [b64Char (a / 4), b64Char (a % 4 * 16)]
  | [a, b] => [b64Char (a / 4), b64Char (a % 4 * 16 + b / 16), b64Char (b % 16 * 4)]
  | a :: b :: c :: rest =>
    b64Char (a / 4) :: b64Char (a % 4 * 16 + b / 16) :: b64Char (b % 16 * 4 + c / 64)
      :: b64Char (c % 64) :: b64UrlEncode rest

def b64UrlDecode : JStr → Option (List Nat)
  | [] => some []
  | [_] => none
  | [x, y] => do
    let vx ← b64CharVal x
    let vy ← b64CharVal y
    pure [vx * 4 + vy / 16]
  | [x, y, z] => do
    let vx ← b64CharVal x
    let vy ← b64CharVal y
    let vz ← b64CharVal z
    pure [vx * 4 + vy / 16, vy % 16 * 16 + vz / 4]
  | x :: y :: z :: w :: rest => do
    let vx ← b64CharVal x
    let vy ← b64CharVal y
    let vz ← b64CharVal z
    let vw ← b64CharVal w
    let tail ← b64UrlDecode rest
    pure ((vx * 4 + vy / 16) :: (vy % 16 * 16 + vz / 4) :: (vz % 4 * 64 + vw) :: tail)

theorem b64CharVal_b64Char : ∀ d, d < 64 → b64CharVal (b64Char d) = some d := by decide

theorem b64Char_ne (d : Nat) (c : Char) (hc : c ∉ b64Alphabet) (hq : c ≠ '?') :
    b64Char d ≠ c := by
  have hlen : b64Alphabet.length = 64 := rfl
  unfold b64Char
  by_cases hd : d < 64
  · intro heq
    apply hc
    rw [← heq, List.getD_eq_getElem?_getD, List.getElem?_eq_getElem (by omega)]
    exact List.getElem_mem _
  · rw [List.getD_eq_default]
    · exact fun h => hq h.symm
    · omega

theorem b64Char_ne_dot (d : Nat) : b64Char d ≠ '.' :=
  b64Char_ne d '.' (by decide) (by decide)

theorem b64_no_dot : ∀ bs : List Nat, '.' ∉ b64UrlEncode bs
  | [] => by simp [b64UrlEncode]
  | [a] => by
    intro hmem
    simp only [b64UrlEncode, List.mem_cons, List.not_mem_nil, or_false] at hmem
    rcases hmem with h | h <;> exact b64Char_ne_dot _ h.symm
  | [a, b] => by
    intro hmem
    simp only [b64UrlEncode, List.mem_cons, List.not_mem_nil, or_false] at hmem
    rcases hmem with h | h | h <;> exact b64Char_ne_dot _ h.symm
  | a :: b :: c :: rest => by
    intro hmem
    simp only [b64UrlEncode, List.mem_cons] at hmem
    rcases hmem with h | h | h | h | h
    · exact b64Char_ne_dot _ h.symm
    · exact b64Char_ne_dot _ h.symm
    · exact b64Char_ne_dot _ h.symm
    · exact b64Char_ne_dot _ h.symm
    · exact b64_no_dot rest h

theorem b64UrlDecode_encode : ∀ bs : List Nat, (∀ x ∈ bs, x < 256) →
    b64UrlDecode (b64UrlEncode bs) = some bs
  | [], _ => rfl
  | [a], h => by
    have ha : a < 256 := h a (by simp)
    show b64UrlDecode [b64Char (a / 4), b64Char (a % 4 * 16)] = some [a]
    unfold b64UrlDecode
    rw [b64CharVal_b64Char _ (by omega), b64CharVal_b64Char _ (by omega)]
    show some [a / 4 * 4 + a % 4 * 16 / 16] = some [a]
    have : a / 4 * 4 + a % 4 * 16 / 16 = a := by omega
    rw [this]
  | [a, b], h => by
    have ha : a < 256 := h a (by simp)
    have hb : b < 256 := h b (by simp)
    show b64UrlDecode
        [b64Char (a / 4), b64Char (a % 4 * 16 + b / 16), b64Char (b % 16 * 4)] = some [a, b]
    unfold b64UrlDecode
    rw [b64CharVal_b64Char _ (by omega), b64CharVal_b64Char _ (by omega),
      b64CharVal_b64Char _ (by omega)]
    show some [a / 4 * 4 + (a % 4 * 16 + b / 16) / 16,
        (a % 4 * 16 + b / 16) % 16 * 16 + b % 16 * 4 / 4] = some [a, b]
    have h1 : a / 4 * 4 + (a % 4 * 16 + b / 16) / 16 = a := by omega
    have h2 : (a % 4 * 16 + b / 16) % 16 * 16 + b % 16 * 4 / 4 = b := by omega
    rw [h1, h2]
  | a :: b :: c :: rest, h => by
    have ha : a < 256 := h a (by simp)
    have hb : b < 256 := h b (by simp)
    have hc : c < 256 := h c (by simp)
    have ih := b64UrlDecode_encode rest (fun x hx => h x (by simp [hx]))
    show b64UrlDecode (b64Char (a / 4) :: b64Char (a % 4 * 16 + b / 16)
        :: b64Char (b % 16 * 4 + c / 64) :: b64Char (c % 64) :: b64UrlEncode rest)
      = some (a :: b :: c :: rest)
    unfold b64UrlDecode
    rw [b64CharVal_b64Char _ (by omega), b64CharVal_b64Char _ (by omega),
      b64CharVal_b64Char _ (by omega), b64CharVal_b64Char _ (by omega)]
    show (b64UrlDecode (b64UrlEncode rest)).bind (fun tail =>
        some ((a / 4 * 4 + (a % 4 * 16 + b / 16) / 16)
          :: ((a % 4 * 16 + b / 16) % 16 * 16 + (b % 16 * 4 + c / 64) / 4)
          :: ((b % 16 * 4 + c / 64) % 4 * 64 + c % 64) :: tail))
      = some (a :: b :: c :: rest)
    rw [ih]
    show some ((a / 4 * 4 + (a % 4 * 16 + b / 16) / 16)
        :: ((a % 4 * 16 + b / 16) % 16 * 16 + (b % 16 * 4 + c / 64) / 4)
        :: ((b % 16 * 4 + c / 64) % 4 * 64 + c % 64) :: rest)
      = some (a :: b :: c :: rest)
    have h1 : a / 4 * 4 + (a % 4 * 16 + b / 16) / 16 = a := by omega
    have h2 : (a % 4 * 16 + b / 16) % 16 * 16 + (b % 16 * 4 + c / 64) / 4 = b := by omega
    have h3 : (b % 16 * 4 + c / 64) % 4 * 64 + c % 64 = c := by omega
    rw [h1, h2, h3]

/- ### UTF-8 decoding (Convert.base64Url(...).toObject() string step) -/

mutual

def utf8Decode : List Nat → Option JStr
  | [] => some []
  | b :: rest =>
    if b < 0x80 then (fun cs => Char.ofNat b :: cs) <$> utf8Decode rest
    else if b < 0xC2 then none
    else if b < 0xE0 then utf8Dec2 b rest
    else if b < 0xF0 then utf8Dec3 b rest
    else if b < 0xF5 then utf8Dec4 b rest
    else none

def utf8Dec2 (b : Nat) : List Nat → Option JStr
  | b2 :: rest2 =>
    if 0x80 ≤ b2 ∧ b2 < 0xC0 then
      (fun cs => Char.ofNat ((b - 0xC0) * 64 + (b2 - 0x80)) :: cs) <$> utf8Decode rest2
    else none
  | _ => none

def utf8Dec3 (b : Nat) : List Nat → Option JStr
  | b2 :: b3 :: rest3 =>
    if 0x80 ≤ b2 ∧ b2 < 0xC0 ∧ 0x80 ≤ b3 ∧ b3 < 0xC0 then
      (fun cs => Char.ofNat (((b - 0xE0) * 64 + (b2 - 0x80)) * 64 + (b3 - 0x80)) :: cs)
        <$> utf8Decode rest3
    else none
  | _ => none

def utf8Dec4 (b : Nat) : List Nat → Option JStr
  | b2 :: b3 :: b4 :: rest4 =>
    if 0x80 ≤ b2 ∧ b2 < 0xC0 ∧ 0x80 ≤ b3 ∧ b3 < 0xC0 ∧ 0x80 ≤ b4 ∧ b4 < 0xC0 then
      (fun cs => Char.ofNat ((((b - 0xF0) * 64 + (b2 - 0x80)) * 64 + (b3 - 0x80)) * 64
        + (b4 - 0x80)) :: cs) <$> utf8Decode rest4
    else none
  | _ => none

end

theorem utf8Decode_encode_ascii : ∀ s : JStr, (∀ c ∈ s, c.toNat < 0x80) →
    utf8Decode (utf8Encode s) = some s
  | [], _ => rfl
  | c :: cs, h => by
    have hc : c.toNat < 0x80 := h c (by simp)
    have ih := utf8Decode_encode_ascii cs (fun x hx => h x (by simp [hx]))
    have henc : utf8Encode (c :: cs) = c.toNat :: utf8Encode cs := by
      show (if c.toNat < 0x80 then [c.toNat]
          else if c.toNat < 0x800 then
            [0xC0 + c.toNat / 64, 0x80 + c.toNat % 64]
          else if c.toNat < 0x10000 then
            [0xE0 + c.toNat / 4096, 0x80 + c.toNat / 64 % 64, 0x80 + c.toNat % 64]
          else
            [0xF0 + c.toNat / 262144, 0x80 + c.toNat / 4096 % 64,
             0x80 + c.toNat / 64 % 64, 0x80 + c.toNat % 64]) ++ utf8Encode cs
        = c.toNat :: utf8Encode cs
      rw [if_pos hc]
      rfl
    rw [henc]
    simp only [utf8Decode]
    rw [if_pos hc, ih]
    show some (Char.ofNat c.toNat :: cs) = some (c :: cs)
    rw [Char.ofNat_toNat]

/- ### JSON.parse (the subset exercised by this library: objects, arrays,
strings with escapes, integer numbers, literals; numbers with fractions or
exponents are outside the model) -/

def jsonWs (c : Char) : Bool := c = ' ' || c = '\t' || c = '\n' || c = '\r'

def skipWs (s : JStr) : JStr := s.dropWhile jsonWs

mutual

/-- String body parsing, after the opening quote. -/
def parseJStr : JStr → Option (JStr × JStr)
  | [] => none
  | c :: rest =>
    if c = '"' then some ([], rest)
    else if c = '\\' then parseEsc rest
    else if c.toNat < 32 then none
    else (fun pr => (c :: pr.1, pr.2)) <$> parseJStr rest

def parseEsc : JStr → Option (JStr × JStr)
  | [] => none
  | e :: rest =>
    if e = '"' then (fun pr => ('"' :: pr.1, pr.2)) <$> parseJStr rest
    else if e = '\\' then (fun pr => ('\\' :: pr.1, pr.2)) <$> parseJStr rest
    else if e = '/' then (fun pr => ('/' :: pr.1, pr.2)) <$> parseJStr rest
    else if e = 'b' then (fun pr => (Char.ofNat 8 :: pr.1, pr.2)) <$> parseJStr rest
    else if e = 'f' then (fun pr => (Char.ofNat 12 :: pr.1, pr.2)) <$> parseJStr rest
    else if e = 'n' then (fun pr => (Char.ofNat 10 :: pr.1, pr.2)) <$> parseJStr rest
    else if e = 'r' then (fun pr => (Char.ofNat 13 :: pr.1, pr.2)) <$> parseJStr rest
    else if e = 't' then (fun pr => (Char.ofNat 9 :: pr.1, pr.2)) <$> parseJStr rest
    else if e = 'u' then parseHex4 rest
    else none

def parseHex4 : JStr → Option (JStr × JStr)
  | h1 :: h2 :: h3 :: h4 :: rest =>
    match hexVal h1, hexVal h2, hexVal h3, hexVal h4 with
    | some v1, some v2, some v3, some v4 =>
      (fun pr => (Char.ofNat (((v1 * 16 + v2) * 16 + v3) * 16 + v4) :: pr.1, pr.2))
        <$> parseJStr rest
    | _, _, _, _ => none
  | _ => none

end

def digitChar (c : Char) : Bool := '0' ≤ c && c ≤ '9'

def parseNum : JStr → Option (Json × JStr)
  | '-' :: rest =>
    if rest.takeWhile digitChar = [] then none
    else some (.num (-(digitsToNat 10 ((rest.takeWhile digitChar).map (fun c => c.toNat - 48)) : Int)),
      rest.dropWhile digitChar)
  | s =>
    if s.takeWhile digitChar = [] then none
    else some (.num (digitsToNat 10 ((s.takeWhile digitChar).map (fun c => c.toNat - 48)) : Int),
      s.dropWhile digitChar)

mutual

def parseValue : Nat → JStr → Option (Json × JStr)
  | 0, _ => none
  | fuel + 1, s => parseValueCore fuel (skipWs s)

def parseValueCore : Nat → JStr → Option (Json × JStr)
  | 0, _ => none
  | _ + 1, [] => none
  | fuel + 1, c :: r =>
    if c = '"' then (fun pr => (Json.str pr.1, pr.2)) <$> parseJStr r
    else if c = '[' then parseArr fuel (skipWs r)
    else if c = lbrace then parseObj fuel (skipWs r)
    else if c = 'n' then
      match r with
      | 'u' :: 'l' :: 'l' :: r2 => some (.null, r2)
      | _ => none
    else if c = 't' then
      match r with
      | 'r' :: 'u' :: 'e' :: r2 => some (.bool true, r2)
      | _ => none
    else if c = 'f' then
      match r with
      | 'a' :: 'l' :: 's' :: 'e' :: r2 => some (.bool false, r2)
      | _ => none
    else parseNum (c :: r)

def parseArr : Nat → JStr → Option (Json × JStr)
  | 0, _ => none
  | _ + 1, ']' :: r => some (.arr [], r)
  | fuel + 1, s => (fun pr => (Json.arr pr.1, pr.2)) <$> parseItems fuel s

def parseObj : Nat → JStr → Option (Json × JStr)
  | 0, _ => none
  | _ + 1, [] => none
  | fuel + 1, c :: r =>
    if c = rbrace then some (.obj [], r)
    else (fun pr => (Json.obj pr.1, pr.2)) <$> parseMembers fuel (c :: r)

def parseMembers : Nat → JStr → Option (List (JStr × Json) × JStr)
  | 0, _ => none
  | fuel + 1, s => parseMembersAt fuel (skipWs s)

def parseMembersAt : Nat → JStr → Option (List (JStr × Json) × JStr)
  | 0, _ => none
  | _ + 1, [] => none
  | fuel + 1, c :: r =>
    if c = '"' then parseMemberAfterQuote fuel r else none

def parseMemberAfterQuote : Nat → JStr → Option (List (JStr × Json) × JStr)
  | 0, _ => none
  | fuel + 1, r =>
    match parseJStr r with
    | none => none
    | some (k, r2) => parseMemberColon fuel k (skipWs r2)

def parseMemberColon : Nat → JStr → JStr → Option (List (JStr × Json) × JStr)
  | 0, _, _ => none
  | _ + 1, _, [] => none
  | fuel + 1, k, c :: r3 =>
    if c = ':' then parseMemberVal fuel k r3 else none

def parseMemberVal : Nat → JStr → JStr → Option (List (JStr × Json) × JStr)
  | 0, _, _ => none
  | fuel + 1, k, r3 =>
    match parseValue fuel r3 with
    | none => none
    | some (v, r4) => parseMembersTail fuel k v (skipWs r4)

def parseMembersTail : Nat → JStr → Json → JStr → Option (List (JStr × Json) × JStr)
  | 0, _, _, _ => none
  | _ + 1, _, _, [] => none
  | fuel + 1, k, v, c :: r =>
    if c = ',' then (fun pr => ((k, v) :: pr.1, pr.2)) <$> parseMembers fuel r
    else if c = rbrace then some ([(k, v)], r)
    else none

def parseItems : Nat → JStr → Option (List Json × JStr)
  | 0, _ => none
  | fuel + 1, s =>
    match parseValue fuel s with
    | none => none
    | some (v, r) => parseItemsTail fuel v (skipWs r)

def parseItemsTail : Nat → Json → JStr → Option (List Json × JStr)
  | 0, _, _ => none
  | _ + 1, _, [] => none
  | fuel + 1, v, c :: r =>
    if c = ',' then (fun pr => (v :: pr.1, pr.2)) <$> parseItems fuel r
    else if c = ']' then some ([v], r)
    else none

end

/-- `JSON.parse`: parse one value, allow trailing whitespace only. -/
def jsonParse (s : JStr) : Option Json :=
  match parseValue (4 * s.length + 8) s with
  | some (j, rest) => if skipWs rest = [] then some j else none
  | none => none

/-- JavaScript property read `obj[k]` on a parsed JSON value (duplicate keys:
the last occurrence wins, as in `JSON.parse`). -/
def jsonLookup (j : Json) (k : JStr) : Option Json :=
  match j with
  | .obj kvs => (kvs.reverse.find? (fun kv => kv.1 == k)).map (fun kv => kv.2)
  | _ => none

/-- `Convert.base64Url(s).toObject()`: base64url-decode, UTF-8 decode,
`JSON.parse`; any failure throws (modelled as `none`). -/
def toObject (s : JStr) : Option Json :=
  match b64UrlDecode s with
  | none => none
  | some bytes =>
    match utf8Decode bytes with
    | none => none
    | some chars => jsonParse chars

/- ### Compact JWS: Crypto.sign and Crypto.verify (src/crypto.ts) -/

/-- The signer capability obtained from `did.getSigner()`: a declared
algorithm, a key id, and a raw signing function over bytes. -/
structure Signer where
  algorithm : JStr
  keyId : JStr
  sign : List Nat → List Nat

/-- The JWS protected header `{alg, kid}` built by `Crypto.sign`, in
insertion order. -/
def jwsHeader (signer : Signer) : Json :=
  .obj [(jstr "alg", .str signer.algorithm), (jstr "kid", .str signer.keyId)]

/-- `Crypto.sign`: base64url the JSON header and the payload, sign
`headerB64 ++ "." ++ payloadB64`, and emit the three-segment compact JWS —
with an empty payload segment when `detached`. -/
def Crypto.sign (signer : Signer) (payload : List Nat) (detached : Bool) : JStr :=
  let headerB64 := b64UrlEncode (utf8Encode (serJson (jwsHeader signer)))
  let payloadB64 := b64UrlEncode payload
  let sigB64 := b64UrlEncode (signer.sign (utf8Encode (headerB64 ++ '.' :: payloadB64)))
  if detached then headerB64 ++ '.' :: '.' :: sigB64
  else headerB64 ++ '.' :: payloadB64 ++ '.' :: sigB64

/-- A DID Document verification method as seen by `Crypto.verify`:
`publicKeyJwk = some pk` when `isPublicJwk` holds of its key material. -/
structure Vm (Jwk : Type) where
  publicKeyJwk : Option Jwk

/-- The external collaborators of `Crypto.verify`: `DidResolver.dereference`
combined with `isDidVerificationMethod` (`some vm` when the content stream is
a verification method), and `keyManager.verify`. -/
structure VerifyCtx (Jwk : Type) where
  dereference : JStr → Option (Vm Jwk)
  verifySig : Jwk → List Nat → List Nat → Bool

/-- A JavaScript runtime value passed as the `jws` argument: a string or
anything else (`typeof jws !== 'string'`). -/
inductive JsVal where
  | str (s : JStr) : JsVal
  | notStr : JsVal

def msgNotString : String := "Signature verification failed: Expected Compact JWS in string format"

def msgParts : String := "Signature verification failed: Expected Compact JWS with 3 parts"

def msgDetached : String := "Signature verification failed: Expected detached JWS with empty payload"

def msgHeader : String := "Signature verification failed: Invalid JWS header"

def msgAlg : String :=
  "Signature verification failed: Missing or invalid algorithm (\"alg\") in JWS header"

def msgKid : String :=
  "Signature verification failed: Missing or invalid key ID (\"kid\") in JWS header"

def msgVm : String :=
  "Signature verification failed: Expected key id (\"kid\") in JWS header to dereference to a DID Document Verification Method"

def msgJwk : String :=
  "Signature verification failed: Expected kid in JWS header to dereference to a DID Document Verification Method with publicKeyJwk"

def msgIntegrity : String := "Signature verification failed: Integrity mismatch"

/-- The `TypeError` thrown by the member access `jwsHeader.alg` when the
decoded JWS header is JSON `null`: `JSON.parse` happily returns `null` inside
the try/catch, but the `!jwsHeader.alg` check sits outside it, so the access
escapes as an uncaught plain `TypeError`.  The runtime message is
engine-dependent; modelled by its stable V8 prefix. -/
def msgNullHeader : String := "Cannot read properties of null"

/-- Is the decoded header the JSON value `null`?  Member access on it throws;
on every other JSON value it yields the member or `undefined`. -/
def isNullJson : Json → Bool
  | .null => true
  | _ => false

/-- The header/alg/kid checks of `Crypto.verify`: a field passes when it is
present and a non-empty string (`!jwsHeader.alg || typeof jwsHeader.alg !==
'string'` — the empty string is falsy). -/
def headerStrField (hdr : Json) (key : JStr) : Option JStr :=
  match jsonLookup hdr key with
  | some (.str a) => if a = [] then none else some a
  | _ => none

/-- `Crypto.verify` after header decoding: alg and kid checks, key
resolution, signature check.  Note two escapes from `InvalidJws`: a header
that decodes to JSON `null` makes `!jwsHeader.alg` throw an uncaught
`TypeError` (the check is outside the try/catch), and the
missing-`publicKeyJwk` branch throws a plain `Error`. -/
def verifyRest {Jwk : Type} (ctx : VerifyCtx Jwk) (headerB64 payloadB64 sigB64 : JStr) :
    Except JsError JStr :=
  match toObject headerB64 with
  | none => .error (.invalidJws msgHeader)
  | some hdr =>
    if isNullJson hdr then .error (.typeError msgNullHeader)
    else
    match headerStrField hdr (jstr "alg") with
    | none => .error (.invalidJws msgAlg)
    | some _ =>
      match headerStrField hdr (jstr "kid") with
      | none => .error (.invalidJws msgKid)
      | some kid =>
        match ctx.dereference kid with
        | none => .error (.invalidJws msgVm)
        | some vm =>
          match vm.publicKeyJwk with
          | none => .error (.genericError msgJwk)
          | some pk =>
            match b64UrlDecode sigB64 with
            | none => .error (.genericError "Invalid base64url string")
            | some sigBytes =>
              if ctx.verifySig pk (utf8Encode (headerB64 ++ '.' :: payloadB64)) sigBytes
              then .ok ((jsSplit '#' kid).getD 0 [])
              else .error (.invalidJws msgIntegrity)

/-- `Crypto.verify` (src/crypto.ts): string check, three-segment split,
detached-payload handling, then `verifyRest`. -/
def Crypto.verify {Jwk : Type} (ctx : VerifyCtx Jwk) (jws : JsVal)
    (detachedPayload : Option (List Nat)) : Except JsError JStr :=
  match jws with
  | .notStr => .error (.invalidJws msgNotString)
  | .str s =>
    let parts := jsSplit '.' s
    if parts.length ≠ 3 then .error (.invalidJws msgParts)
    else
      match detachedPayload with
      | some dp =>
        if parts.getD 1 [] ≠ [] then .error (.invalidJws msgDetached)
        else verifyRest ctx (parts.getD 0 []) (b64UrlEncode dp) (parts.getD 2 [])
      | none => verifyRest ctx (parts.getD 0 []) (parts.getD 1 []) (parts.getD 2 [])

/-- The payload segment `Crypto.verify` actually checks: the middle segment,
or the base64url encoding of the supplied detached payload. -/
def effPayloadB64 (dp : Option (List Nat)) (p : JStr) : JStr :=
  match dp with
  | none => p
  | some d => b64UrlEncode d

theorem verify_reach {Jwk : Type} (ctx : VerifyCtx Jwk) (s h p sg : JStr)
    (dp : Option (List Nat)) (hs : jsSplit '.' s = [h, p, sg])
    (hdp : dp = none ∨ p = []) :
    Crypto.verify ctx (.str s) dp = verifyRest ctx h (effPayloadB64 dp p) sg := by
  simp only [Crypto.verify, hs]
  match dp, hdp with
  | none, _ => simp [effPayloadB64]
  | some d, hdp =>
    rcases hdp with hdp | hdp
    · exact absurd hdp (by simp)
    · subst hdp
      simp [effPayloadB64]

/-- A character that JSON string serialization emits literally, ASCII. -/
def jsonSafeChar (c : Char) : Bool :=
  c ≠ '"' && c ≠ '\\' && 32 ≤ c.toNat && c.toNat < 128

theorem escChar_safe (c : Char) (h : jsonSafeChar c = true) : escChar c = [c] := by
  simp only [jsonSafeChar, Bool.and_eq_true, decide_eq_true_eq] at h
  obtain ⟨⟨⟨h1, h2⟩, h3⟩, h4⟩ := h
  unfold escChar
  rw [if_neg h1, if_neg h2,
    if_neg (fun hc => absurd (hc ▸ h3) (by decide)),
    if_neg (fun hc => absurd (hc ▸ h3) (by decide)),
    if_neg (fun hc => absurd (hc ▸ h3) (by decide)),
    if_neg (fun hc => absurd (hc ▸ h3) (by decide)),
    if_neg (fun hc => absurd (hc ▸ h3) (by decide)),
    if_neg (by omega)]

theorem serStr_safe (v : JStr) (h : ∀ c ∈ v, jsonSafeChar c = true) :
    serStr v = '"' :: v ++ ['"'] := by
  unfold serStr
  have : (v.map escChar).flatten = v := by
    induction v with
    | nil => rfl
    | cons c cs ih =>
      have hc := escChar_safe c (h c (by simp))
      simp only [List.map, List.flatten, hc]
      rw [ih (fun x hx => h x (by simp [hx]))]
      rfl
  rw [this]

theorem parseJStr_safe : ∀ (v : JStr), (∀ c ∈ v, jsonSafeChar c = true) → ∀ rest : JStr,
    parseJStr (v ++ '"' :: rest) = some (v, rest)
  | [], _, rest => by
    show parseJStr ('"' :: rest) = some ([], rest)
    unfold parseJStr
    rw [if_pos rfl]
  | c :: v, h, rest => by
    have hc := h c (by simp)
    simp only [jsonSafeChar, Bool.and_eq_true, decide_eq_true_eq] at hc
    obtain ⟨⟨⟨h1, h2⟩, h3⟩, h4⟩ := hc
    have ih := parseJStr_safe v (fun x hx => h x (by simp [hx])) rest
    show parseJStr (c :: (v ++ '"' :: rest)) = some (c :: v, rest)
    unfold parseJStr
    rw [if_neg h1, if_neg h2, if_neg (by omega), ih]
    rfl

theorem skipWs_not_ws (c : Char) (s : JStr) (h : jsonWs c = false) :
    skipWs (c :: s) = c :: s := by
  unfold skipWs
  rw [List.dropWhile_cons_of_neg (by simp [h])]

theorem parseValue_str (v : JStr) (hv : ∀ c ∈ v, jsonSafeChar c = true)
    (fuel : Nat) (hf : 2 ≤ fuel) (rest : JStr) :
    parseValue fuel (serStr v ++ rest) = some (.str v, rest) := by
  match fuel, hf with
  | f + 2, _ =>
    rw [serStr_safe v hv]
    have hshape : ('"' :: v ++ ['"']) ++ rest = '"' :: (v ++ '"' :: rest) := by simp
    rw [hshape]
    show parseValue (f + 2) ('"' :: (v ++ '"' :: rest)) = some (.str v, rest)
    unfold parseValue
    rw [skipWs_not_ws '"' _ (by decide)]
    unfold parseValueCore
    rw [if_pos rfl, parseJStr_safe v hv rest]
    rfl

/-- The members of a flat object whose values are all strings. -/
def strMembers (kvs : List (JStr × JStr)) : List (JStr × Json) :=
  kvs.map (fun kv => (kv.1, Json.str kv.2))

/-- All keys and values of a flat string map are safe. -/
def safeKvs (kvs : List (JStr × JStr)) : Prop :=
  ∀ kv ∈ kvs, (∀ c ∈ kv.1, jsonSafeChar c = true) ∧ (∀ c ∈ kv.2, jsonSafeChar c = true)

theorem parseMemberAfterQuote_eq (fuel : Nat) (k r2 r : JStr)
    (h : parseJStr r = some (k, r2)) :
    parseMemberAfterQuote (fuel + 1) r = parseMemberColon fuel k (skipWs r2) := by
  unfold parseMemberAfterQuote
  rw [h]

theorem parseMemberVal_eq (fuel : Nat) (k r3 r4 : JStr) (v : Json)
    (h : parseValue fuel r3 = some (v, r4)) :
    parseMemberVal (fuel + 1) k r3 = parseMembersTail fuel k v (skipWs r4) := by
  unfold parseMemberVal
  rw [h]

theorem parseMembers_flat : ∀ (kvs : List (JStr × JStr)), safeKvs kvs → kvs ≠ [] →
    ∀ (fuel : Nat), 7 * kvs.length ≤ fuel → ∀ rest : JStr,
    parseMembers fuel (serMembers (strMembers kvs) ++ rbrace :: rest)
      = some (strMembers kvs, rest)
  | [], _, hne, _, _, _ => absurd rfl hne
  | [(k, v)], hsafe, _, fuel, hfuel, rest => by
    obtain ⟨hk, hv⟩ := hsafe (k, v) (by simp)
    match fuel, hfuel with
    | f + 7, _ =>
      show parseMembers (f + 7)
        ((serStr k ++ ':' :: serJson (.str v)) ++ rbrace :: rest) = _
      rw [serStr_safe k hk]
      have hshape : (('"' :: k ++ ['"']) ++ ':' :: serJson (.str v)) ++ rbrace :: rest
          = '"' :: (k ++ '"' :: (':' :: (serJson (.str v) ++ rbrace :: rest))) := by
        simp
      rw [hshape]
      unfold parseMembers
      rw [skipWs_not_ws '"' _ (by decide)]
      unfold parseMembersAt
      rw [if_pos rfl]
      rw [parseMemberAfterQuote_eq (f + 4) k _ _ (parseJStr_safe k hk _)]
      rw [skipWs_not_ws ':' _ (by decide)]
      unfold parseMemberColon
      rw [if_pos rfl]
      have hser : serJson (Json.str v) = serStr v := rfl
      rw [hser]
      show parseMemberVal (f + 2 + 1) k (serStr v ++ rbrace :: rest) = _
      rw [parseMemberVal_eq (f + 2) k _ (rbrace :: rest) (.str v)
        (parseValue_str v hv (f + 2) (by omega) _)]
      rw [skipWs_not_ws rbrace _ (by decide)]
      unfold parseMembersTail
      rw [if_neg (by decide), if_pos rfl]
      rfl
  | (k, v) :: kv2 :: kvs, hsafe, _, fuel, hfuel, rest => by
    obtain ⟨hk, hv⟩ := hsafe (k, v) (by simp)
    have hsafe' : safeKvs (kv2 :: kvs) := fun kv hkv => hsafe kv (by simp [hkv])
    match fuel, hfuel with
    | f + 7, hfuel =>
      have ih := parseMembers_flat (kv2 :: kvs) hsafe' (by simp) (f + 1)
        (by simp only [List.length_cons] at hfuel ⊢; omega) rest
      show parseMembers (f + 7)
        ((serStr k ++ ':' :: serJson (.str v) ++ ',' :: serMembers (strMembers (kv2 :: kvs)))
          ++ rbrace :: rest) = _
      rw [serStr_safe k hk]
      have hshape : (('"' :: k ++ ['"']) ++ ':' :: serJson (.str v)
            ++ ',' :: serMembers (strMembers (kv2 :: kvs))) ++ rbrace :: rest
          = '"' :: (k ++ '"' :: (':' :: (serJson (.str v)
            ++ ',' :: (serMembers (strMembers (kv2 :: kvs)) ++ rbrace :: rest)))) := by
        simp
      rw [hshape]
      unfold parseMembers
      rw [skipWs_not_ws '"' _ (by decide)]
      unfold parseMembersAt
      rw [if_pos rfl]
      rw [parseMemberAfterQuote_eq (f + 4) k _ _ (parseJStr_safe k hk _)]
      rw [skipWs_not_ws ':' _ (by decide)]
      unfold parseMemberColon
      rw [if_pos rfl]
      have hser : serJson (Json.str v) = serStr v := rfl
      rw [hser]
      show parseMemberVal (f + 2 + 1) k
        (serStr v ++ ',' :: (serMembers (strMembers (kv2 :: kvs)) ++ rbrace :: rest)) = _
      rw [parseMemberVal_eq (f + 2) k _
        (',' :: (serMembers (strMembers (kv2 :: kvs)) ++ rbrace :: rest)) (.str v)
        (parseValue_str v hv (f + 2) (by omega) _)]
      rw [skipWs_not_ws ',' _ (by decide)]
      unfold parseMembersTail
      rw [if_pos rfl, ih]
      rfl

theorem serMembers_strMembers_len : ∀ kvs : List (JStr × JStr),
    2 * kvs.length ≤ (serMembers (strMembers kvs)).length
  | [] => by simp
  | [(k, v)] => by
    show 2 * (1 : Nat) ≤ (serStr k ++ ':' :: serJson (.str v)).length
    have h1 : 2 ≤ (serStr k).length := by
      show 2 ≤ ('"' :: (k.map escChar).flatten ++ ['"']).length
      simp
    simp only [List.length_append, List.length_cons]
    omega
  | (k, v) :: kv2 :: kvs => by
    have ih := serMembers_strMembers_len (kv2 :: kvs)
    show 2 * ((kv2 :: kvs).length + 1)
        ≤ (serStr k ++ ':' :: serJson (.str v) ++ ',' :: serMembers (strMembers (kv2 :: kvs))).length
    simp only [List.length_append, List.length_cons] at ih ⊢
    omega

theorem parseValue_flat_obj : ∀ (kvs : List (JStr × JStr)), safeKvs kvs →
    ∀ fuel, 7 * kvs.length + 4 ≤ fuel → ∀ rest : JStr,
    parseValue fuel (serJson (.obj (strMembers kvs)) ++ rest)
      = some (.obj (strMembers kvs), rest) := by
  intro kvs hsafe fuel hfuel rest
  match fuel, hfuel with
  | f + 4, hfuel =>
    have hshape : serJson (.obj (strMembers kvs)) ++ rest
        = lbrace :: (serMembers (strMembers kvs) ++ rbrace :: rest) := by
      show (lbrace :: serMembers (strMembers kvs) ++ [rbrace]) ++ rest = _
      simp
    rw [hshape]
    unfold parseValue
    rw [skipWs_not_ws lbrace _ (by decide)]
    unfold parseValueCore
    rw [if_neg (by decide), if_neg (by decide), if_pos rfl]
    match kvs, hsafe, hfuel with
    | [], _, _ =>
      show parseObj (f + 2) (skipWs (rbrace :: rest)) = some (.obj [], rest)
      rw [skipWs_not_ws rbrace _ (by decide)]
      unfold parseObj
      rw [if_pos rfl]
    | (k, v) :: kvs', hsafe, hfuel =>
      obtain ⟨hk, hv⟩ := hsafe (k, v) (by simp)
      obtain ⟨X, hX⟩ : ∃ X, serMembers (strMembers ((k, v) :: kvs')) ++ rbrace :: rest
          = '"' :: X := by
        cases kvs' with
        | nil =>
          refine ⟨(k ++ ['"']) ++ ':' :: serJson (.str v) ++ rbrace :: rest, ?_⟩
          show (serStr k ++ ':' :: serJson (.str v)) ++ rbrace :: rest = _
          rw [serStr_safe k hk]
          simp
        | cons kv2 kvs'' =>
          refine ⟨(k ++ ['"']) ++ ':' :: serJson (.str v)
            ++ ',' :: (serMembers (strMembers (kv2 :: kvs'')) ++ rbrace :: rest), ?_⟩
          show (serStr k ++ ':' :: serJson (.str v)
            ++ ',' :: serMembers (strMembers (kv2 :: kvs''))) ++ rbrace :: rest = _
          rw [serStr_safe k hk]
          simp
      rw [hX, skipWs_not_ws '"' _ (by decide)]
      unfold parseObj
      rw [if_neg (by decide), ← hX,
        parseMembers_flat ((k, v) :: kvs') hsafe (by simp) (f + 1)
          (by simp only [List.length_cons] at hfuel ⊢; omega) rest]
      rfl

theorem jsonParse_flat_obj (kvs : List (JStr × JStr)) (hsafe : safeKvs kvs) :
    jsonParse (serJson (.obj (strMembers kvs))) = some (.obj (strMembers kvs)) := by
  unfold jsonParse
  have hlen := serMembers_strMembers_len kvs
  have hbound : 7 * kvs.length + 4
      ≤ 4 * (serJson (.obj (strMembers kvs))).length + 8 := by
    have : (serJson (.obj (strMembers kvs))).length
        = (serMembers (strMembers kvs)).length + 2 := by
      show (lbrace :: serMembers (strMembers kvs) ++ [rbrace]).length = _
      simp
    omega
  have h := parseValue_flat_obj kvs hsafe
    (4 * (serJson (.obj (strMembers kvs))).length + 8) hbound []
  rw [List.append_nil] at h
  rw [h]
  rfl

theorem char_toNat_lt (c : Char) : c.toNat < 0x110000 := by
  have h := c.valid
  unfold UInt32.isValidChar Nat.isValidChar at h
  rcases h with h | h
  · exact lt_trans h (by norm_num)
  · exact h.2

theorem utf8Encode_lt : ∀ s : JStr, ∀ b ∈ utf8Encode s, b < 256
  | [], b, hb => by simp [utf8Encode] at hb
  | c :: cs, b, hb => by
    have hcp := char_toNat_lt c
    have ih := utf8Encode_lt cs
    unfold utf8Encode at hb
    rw [List.mem_append] at hb
    rcases hb with hb | hb
    · split at hb <;> [skip; split at hb] <;> [skip; skip; split at hb]
      all_goals
        simp only [List.mem_cons, List.not_mem_nil, or_false] at hb
        first
        | (rcases hb with rfl | rfl <;> omega)
        | (rcases hb with rfl | rfl | rfl <;> omega)
        | (rcases hb with rfl | rfl | rfl | rfl <;> omega)
    · exact ih b hb

theorem safe_char_ascii (c : Char) (h : jsonSafeChar c = true) : c.toNat < 0x80 := by
  simp only [jsonSafeChar, Bool.and_eq_true, decide_eq_true_eq] at h
  exact h.2

theorem serStr_safe_ascii (v : JStr) (h : ∀ c ∈ v, jsonSafeChar c = true) :
    ∀ c ∈ serStr v, c.toNat < 0x80 := by
  rw [serStr_safe v h]
  intro c hc
  rcases List.mem_cons.mp hc with rfl | hc
  · decide
  · rcases List.mem_append.mp hc with hc | hc
    · exact safe_char_ascii c (h c hc)
    · simp only [List.mem_singleton] at hc
      subst hc
      decide

theorem serMembers_flat_ascii : ∀ kvs : List (JStr × JStr), safeKvs kvs →
    ∀ c ∈ serMembers (strMembers kvs), c.toNat < 0x80
  | [], _, c, hc => by simp [strMembers, serMembers] at hc
  | [(k, v)], hsafe, c, hc => by
    obtain ⟨hk, hv⟩ := hsafe (k, v) (by simp)
    have hc' : c ∈ serStr k ++ ':' :: serJson (.str v) := hc
    rcases List.mem_append.mp hc' with hm | hm
    · exact serStr_safe_ascii k hk c hm
    · rcases List.mem_cons.mp hm with rfl | hm
      · decide
      · exact serStr_safe_ascii v hv c hm
  | (k, v) :: kv2 :: kvs, hsafe, c, hc => by
    obtain ⟨hk, hv⟩ := hsafe (k, v) (by simp)
    have ih := serMembers_flat_ascii (kv2 :: kvs) (fun kv hkv => hsafe kv (by simp [hkv]))
    have hc' : c ∈ serStr k ++ ':' :: serJson (.str v)
        ++ ',' :: serMembers (strMembers (kv2 :: kvs)) := hc
    rcases List.mem_append.mp hc' with hm | hm
    · rcases List.mem_append.mp hm with hm | hm
      · exact serStr_safe_ascii k hk c hm
      · rcases List.mem_cons.mp hm with rfl | hm
        · decide
        · exact serStr_safe_ascii v hv c hm
    · rcases List.mem_cons.mp hm with rfl | hm
      · decide
      · exact ih c hm

theorem serJson_flat_ascii (kvs : List (JStr × JStr)) (hsafe : safeKvs kvs) :
    ∀ c ∈ serJson (.obj (strMembers kvs)), c.toNat < 0x80 := by
  intro c hc
  have hc' : c ∈ lbrace :: serMembers (strMembers kvs) ++ [rbrace] := hc
  rcases List.mem_cons.mp hc' with rfl | hm
  · decide
  · rcases List.mem_append.mp hm with hm | hm
    · exact serMembers_flat_ascii kvs hsafe c hm
    · simp only [List.mem_singleton] at hm
      subst hm
      decide

/-- The full header decode chain inverts serialization for flat
string-valued objects. -/
theorem toObject_of_flat (kvs : List (JStr × JStr)) (hsafe : safeKvs kvs) :
    toObject (b64UrlEncode (utf8Encode (serJson (.obj (strMembers kvs)))))
      = some (.obj (strMembers kvs)) := by
  unfold toObject
  rw [b64UrlDecode_encode _ (utf8Encode_lt _)]
  show (match utf8Decode (utf8Encode (serJson (.obj (strMembers kvs)))) with
      | none => none
      | some chars => jsonParse chars) = some (.obj (strMembers kvs))
  rw [utf8Decode_encode_ascii _ (serJson_flat_ascii kvs hsafe)]
  show jsonParse (serJson (.obj (strMembers kvs))) = some (.obj (strMembers kvs))
  exact jsonParse_flat_obj kvs hsafe

theorem headerStrField_alg (A K : JStr) (hA : A ≠ []) :
    headerStrField (.obj [(jstr "alg", .str A), (jstr "kid", .str K)]) (jstr "alg")
      = some A := by
  have hrev : ([(jstr "alg", Json.str A), (jstr "kid", Json.str K)]).reverse
      = [(jstr "kid", Json.str K), (jstr "alg", Json.str A)] := by simp
  show (match Option.map (fun kv => kv.2)
      (List.find? (fun kv => kv.1 == jstr "alg")
        ([(jstr "alg", Json.str A), (jstr "kid", Json.str K)].reverse)) with
    | some (Json.str a) => if a = [] then none else some a
    | _ => none) = some A
  rw [hrev, List.find?_cons_of_neg _ (fun h => Bool.noConfusion h),
    List.find?_cons_of_pos _ rfl]
  show (if A = [] then none else some A) = some A
  rw [if_neg hA]

theorem headerStrField_kid (A K : JStr) (hK : K ≠ []) :
    headerStrField (.obj [(jstr "alg", .str A), (jstr "kid", .str K)]) (jstr "kid")
      = some K := by
  have hrev : ([(jstr "alg", Json.str A), (jstr "kid", Json.str K)]).reverse
      = [(jstr "kid", Json.str K), (jstr "alg", Json.str A)] := by simp
  show (match Option.map (fun kv => kv.2)
      (List.find? (fun kv => kv.1 == jstr "kid")
        ([(jstr "alg", Json.str A), (jstr "kid", Json.str K)].reverse)) with
    | some (Json.str a) => if a = [] then none else some a
    | _ => none) = some K
  rw [hrev, List.find?_cons_of_pos _ rfl]
  show (if K = [] then none else some K) = some K
  rw [if_neg hK]

/-- C3: signing a payload in detached mode produces
`headerB64 ++ ".." ++ sigB64` (empty middle segment), and verifying that
output with the same payload supplied as the detached payload — under a
resolver that returns the signer's public key for the header's `kid` and a
key manager that accepts the signer's signatures — succeeds and returns the
substring of `kid` before the first `#`. -/
theorem crypto_sign_verify_detached (Jwk : Type) (ctx : VerifyCtx Jwk) (signer : Signer)
    (payload : List Nat) (pk : Jwk)
    (halgS : ∀ c ∈ signer.algorithm, jsonSafeChar c = true)
    (hkidS : ∀ c ∈ signer.keyId, jsonSafeChar c = true)
    (halgN : signer.algorithm ≠ [])
    (hkidN : signer.keyId ≠ [])
    (_hpay : ∀ b ∈ payload, b < 256)
    (hsigB : ∀ data, ∀ b ∈ signer.sign data, b < 256)
    (hderef : ctx.dereference signer.keyId = some ⟨some pk⟩)
    (hcorrect : ∀ data, ctx.verifySig pk data (signer.sign data) = true) :
    Crypto.sign signer payload true
      = b64UrlEncode (utf8Encode (serJson (jwsHeader signer))) ++ '.' :: '.' ::
        b64UrlEncode (signer.sign (utf8Encode
          (b64UrlEncode (utf8Encode (serJson (jwsHeader signer)))
            ++ '.' :: b64UrlEncode payload))) ∧
    Crypto.verify ctx (.str (Crypto.sign signer payload true)) (some payload)
      = .ok (signer.keyId.takeWhile (· ≠ '#')) := by
  have hsign : Crypto.sign signer payload true
      = b64UrlEncode (utf8Encode (serJson (jwsHeader signer))) ++ '.' :: '.' ::
        b64UrlEncode (signer.sign (utf8Encode
          (b64UrlEncode (utf8Encode (serJson (jwsHeader signer)))
            ++ '.' :: b64UrlEncode payload))) := rfl
  refine ⟨hsign, ?_⟩
  rw [hsign]
  set H := b64UrlEncode (utf8Encode (serJson (jwsHeader signer))) with hH
  set P := b64UrlEncode payload with hP
  set SIG := b64UrlEncode (signer.sign (utf8Encode (H ++ '.' :: P))) with hSIG
  have hsplit : jsSplit '.' (H ++ '.' :: '.' :: SIG) = [H, [], SIG] := by
    rw [jsSplit_append '.' H _ (b64_no_dot _)]
    have h2 : jsSplit '.' ('.' :: SIG) = [] :: jsSplit '.' SIG := by
      show (if ('.' : Char) = '.' then [] :: jsSplit '.' SIG
          else match jsSplit '.' SIG with
            | [] => [['.']]
            | s :: rest => ('.' :: s) :: rest) = [] :: jsSplit '.' SIG
      rw [if_pos rfl]
    rw [h2, jsSplit_no_sep '.' SIG (b64_no_dot _)]
  rw [verify_reach ctx _ H [] SIG (some payload) hsplit (Or.inr rfl)]
  have hobj : toObject H = some (jwsHeader signer) := by
    have hsafe : safeKvs [(jstr "alg", signer.algorithm), (jstr "kid", signer.keyId)] := by
      intro kv hkv
      rcases List.mem_cons.mp hkv with rfl | hkv
      · exact ⟨show ∀ c ∈ jstr "alg", jsonSafeChar c = true by decide, halgS⟩
      · simp only [List.mem_singleton] at hkv
        subst hkv
        exact ⟨show ∀ c ∈ jstr "kid", jsonSafeChar c = true by decide, hkidS⟩
    exact toObject_of_flat [(jstr "alg", signer.algorithm), (jstr "kid", signer.keyId)] hsafe
  have hdec : b64UrlDecode SIG = some (signer.sign (utf8Encode (H ++ '.' :: P))) :=
    b64UrlDecode_encode _ (hsigB _)
  simp only [verifyRest, hobj]
  rw [if_neg (fun hc => Bool.noConfusion hc)]
  simp only [effPayloadB64, jwsHeader, headerStrField_alg _ _ halgN,
    headerStrField_kid _ _ hkidN, hderef, hdec, ← hP, hcorrect]
  rw [jsSplit_headD, if_pos trivial]

/-- Witness for `crypto_sign_verify_detached` with a concrete signer and a
resolver/key-manager pair that accepts its signatures. -/
theorem crypto_sign_verify_detached_witness :
    Crypto.sign ⟨jstr "ES256K", jstr "did:example:123#0", fun _ => [1, 2, 3]⟩ [5, 6] true
      = b64UrlEncode (utf8Encode (serJson (jwsHeader
          ⟨jstr "ES256K", jstr "did:example:123#0", fun _ => [1, 2, 3]⟩))) ++ '.' :: '.' ::
        b64UrlEncode [1, 2, 3] ∧
    @Crypto.verify Unit ⟨fun _ => some ⟨some ()⟩, fun _ _ sig => sig == [1, 2, 3]⟩
      (.str (Crypto.sign ⟨jstr "ES256K", jstr "did:example:123#0", fun _ => [1, 2, 3]⟩
        [5, 6] true))
      (some [5, 6])
      = .ok ((jstr "did:example:123#0").takeWhile (· ≠ '#')) := by
  have h := crypto_sign_verify_detached Unit
    ⟨fun _ => some ⟨some ()⟩, fun _ _ sig => sig == [1, 2, 3]⟩
    ⟨jstr "ES256K", jstr "did:example:123#0", fun _ => [1, 2, 3]⟩
    [5, 6] ()
    (by decide) (by decide) (by decide) (by decide) (by decide)
    (fun _ => show ∀ b ∈ [1, 2, 3], b < 256 by decide) rfl (fun _ => rfl)
  exact ⟨h.1, h.2⟩

/- ### DapRegistration (the registration record, src/registration.ts) -/

structure DapRegistration where
  id : RegistrationId
  handle : JStr
  did : JStr
  domain : JStr
  signature : Option JStr
deriving DecidableEq, Repr

/-- `computeDigest`: the canonical digest of exactly
`{id (as string), handle, did, domain}`. -/
def DapRegistration.payloadJson (r : DapRegistration) : Json :=
  .obj [(jstr "id", .str r.id.toStr), (jstr "handle", .str r.handle),
        (jstr "did", .str r.did), (jstr "domain", .str r.domain)]

def DapRegistration.computeDigest (r : DapRegistration) : List Nat :=
  Crypto.digest r.payloadJson

/-- `toJSON`: the fixed field order `{id, handle, did, domain, signature}`;
`JSON.stringify` omits the `signature` key when it is `undefined`. -/
def DapRegistration.toJSON (r : DapRegistration) : Json :=
  .obj ([(jstr "id", .str r.id.toStr), (jstr "handle", .str r.handle),
         (jstr "did", .str r.did), (jstr "domain", .str r.domain)] ++
    (match r.signature with
     | some s => [(jstr "signature", .str s)]
     | none => []))

/-- `JSON.stringify(registration)` — serialization of the record. -/
def DapRegistration.serialize (r : DapRegistration) : JStr := serJson r.toJSON

/-- `sign`: compute the digest and store a detached compact JWS over it. -/
def DapRegistration.signRecord (r : DapRegistration) (signer : Signer) : DapRegistration :=
  { r with signature := some (Crypto.sign signer r.computeDigest true) }

/-- `verify` (src/registration.ts): missing-signature check, detached
verification of the stored JWS over the recomputed digest, and the
signer-matches-`did` check. -/
def DapRegistration.verify {Jwk : Type} (r : DapRegistration) (ctx : VerifyCtx Jwk) :
    Except JsError JStr :=
  match r.signature with
  | none => .error (.invalidDapRegistration "Invalid DAP Registration: Signature is missing")
  | some sig =>
    match Crypto.verify ctx (.str sig) (some r.computeDigest) with
    | .error e => .error e
    | .ok signerDid =>
      if r.did ≠ signerDid then
        .error (.invalidDapRegistration
          "Invalid DAP Registration: Expected registration to be signed by the specified DID")
      else .ok signerDid

/-- A JSON object member that is a string, read off a parsed record. -/
def asStrField (j : Json) (k : JStr) : Option JStr :=
  match jsonLookup j k with
  | some (.str s) => some s
  | _ => none

/-- `DapRegistration.parse` on a serialized string: `JSON.parse` (wrapped
into `InvalidDapRegistration` on failure), field extraction,
`RegistrationId.parse`, record construction, then `verify`.  Field shapes
other than strings are collapsed to the parse failure; no claim exercises
them. -/
def DapRegistration.parse {Jwk : Type} (ctx : VerifyCtx Jwk) (raw : JStr) :
    Except JsError DapRegistration :=
  match jsonParse raw with
  | none => .error (.invalidDapRegistration "Failed to parse DAP registration")
  | some j =>
    match asStrField j (jstr "id") with
    | none => .error (.invalidDapRegistration "Failed to parse DAP registration")
    | some idStr =>
      match RegistrationId.parse idStr with
      | .error e => .error e
      | .ok rid =>
        match asStrField j (jstr "handle"), asStrField j (jstr "did"),
            asStrField j (jstr "domain") with
        | some handle, some did, some domain =>
          match DapRegistration.verify
              ⟨rid, handle, did, domain, asStrField j (jstr "signature")⟩ ctx with
          | .error e => .error e
          | .ok _ => .ok ⟨rid, handle, did, domain, asStrField j (jstr "signature")⟩
        | _, _, _ => .error (.invalidDapRegistration "Failed to parse DAP registration")

/- ### C5: record verification causes -/

/-- C5: `verify()` fails with `Signature is missing` when unsigned;
otherwise it verifies the stored signature as a detached JWS over the
recomputed digest of `{id, handle, did, domain}`, fails with a distinct
`InvalidDapRegistration` when the recovered signer differs from the record's
`did`, and returns the verified identity on success. -/
theorem reg_verify_causes (Jwk : Type) :
    (∀ (ctx : VerifyCtx Jwk) (r : DapRegistration), r.signature = none →
      r.verify ctx = .error (.invalidDapRegistration
        "Invalid DAP Registration: Signature is missing")) ∧
    (∀ (ctx : VerifyCtx Jwk) (r : DapRegistration) sig who, r.signature = some sig →
      Crypto.verify ctx (.str sig) (some r.computeDigest) = .ok who → who ≠ r.did →
      r.verify ctx = .error (.invalidDapRegistration
        "Invalid DAP Registration: Expected registration to be signed by the specified DID")) ∧
    (∀ (ctx : VerifyCtx Jwk) (r : DapRegistration) sig, r.signature = some sig →
      Crypto.verify ctx (.str sig) (some r.computeDigest) = .ok r.did →
      r.verify ctx = .ok r.did) ∧
    ("Invalid DAP Registration: Signature is missing"
      ≠ "Invalid DAP Registration: Expected registration to be signed by the specified DID") := by
  refine ⟨?_, ?_, ?_, by decide⟩
  · intro ctx r hs
    unfold DapRegistration.verify
    rw [hs]
  · intro ctx r sig who hs hv hne
    unfold DapRegistration.verify
    rw [hs]
    simp only [hv]
    rw [if_pos (fun h => hne h.symm)]
  · intro ctx r sig hs hv
    unfold DapRegistration.verify
    rw [hs]
    simp only [hv]
    rw [if_neg (fun h => h rfl)]

/-- Witness for `reg_verify_causes`: an unsigned record, a signed record
whose `did` was tampered with, and a correctly attributed record, under a
resolver/key-manager that accepts the stored signature. -/
theorem reg_verify_causes_witness :
    @DapRegistration.verify Unit
      ⟨⟨jstr "0123456789abcdefghjkmnpqrs"⟩, jstr "h", jstr "did:example:123", jstr "d", none⟩
      ⟨fun _ => some ⟨some ()⟩, fun _ _ _ => true⟩
      = .error (.invalidDapRegistration "Invalid DAP Registration: Signature is missing") ∧
    @DapRegistration.verify Unit
      ⟨⟨jstr "0123456789abcdefghjkmnpqrs"⟩, jstr "h", jstr "other", jstr "d",
        some (jstr "eyJhbGciOiJFUzI1NksiLCJraWQiOiJkaWQ6ZXhhbXBsZToxMjMjMCJ9..")⟩
      ⟨fun _ => some ⟨some ()⟩, fun _ _ _ => true⟩
      = .error (.invalidDapRegistration
          "Invalid DAP Registration: Expected registration to be signed by the specified DID") ∧
    @DapRegistration.verify Unit
      ⟨⟨jstr "0123456789abcdefghjkmnpqrs"⟩, jstr "h", jstr "did:example:123", jstr "d",
        some (jstr "eyJhbGciOiJFUzI1NksiLCJraWQiOiJkaWQ6ZXhhbXBsZToxMjMjMCJ9..")⟩
      ⟨fun _ => some ⟨some ()⟩, fun _ _ _ => true⟩
      = .ok (jstr "did:example:123") := by
  have h := reg_verify_causes Unit
  refine ⟨h.1 _ _ rfl, ?_, ?_⟩
  · exact h.2.1 _ _ (jstr "eyJhbGciOiJFUzI1NksiLCJraWQiOiJkaWQ6ZXhhbXBsZToxMjMjMCJ9..")
      (jstr "did:example:123") rfl (by rfl) (by decide)
  · exact h.2.2.1 _ _ (jstr "eyJhbGciOiJFUzI1NksiLCJraWQiOiJkaWQ6ZXhhbXBsZToxMjMjMCJ9..")
      rfl (by rfl)

/- ### C4: signed-record serialize/parse round trip -/

theorem b32Val_mem (c : Char) (h : (b32Val c).isSome = true) : c ∈ b32Alphabet := by
  unfold b32Val at h
  rw [List.findIdx?_isSome] at h
  rcases List.any_eq_true.mp h with ⟨x, hx, he⟩
  simp only [decide_eq_true_eq] at he
  exact he ▸ hx

theorem b32_safe (c : Char) (h : c ∈ b32Alphabet) : jsonSafeChar c = true ∧ c ≠ '_' := by
  have hall : ∀ x ∈ b32Alphabet, jsonSafeChar x = true ∧ x ≠ '_' := by decide
  exact hall c h

theorem validateSuffix_ok_elim (suf : JStr) (h : validateSuffix suf = .ok ()) :
    suf.length = 26 ∧ ∀ c ∈ suf, (b32Val c).isSome = true := by
  unfold validateSuffix at h
  by_cases h1 : suf.length ≠ 26
  · rw [if_pos h1] at h
    exact absurd h (by simp)
  · rw [if_neg h1] at h
    by_cases h2 : ¬ ∀ c ∈ suf, (b32Val c).isSome
    · rw [if_pos h2] at h
      exact absurd h (by simp)
    · exact ⟨not_not.mp h1, not_not.mp h2⟩

theorem suffix_safe (suf : JStr) (h : validateSuffix suf = .ok ()) :
    (∀ c ∈ suf, jsonSafeChar c = true) ∧ '_' ∉ suf := by
  have h2 := (validateSuffix_ok_elim suf h).2
  refine ⟨fun c hc => (b32_safe c (b32Val_mem c (h2 c hc))).1, fun hm => ?_⟩
  exact (b32_safe '_' (b32Val_mem '_' (h2 _ hm))).2 rfl

theorem toStr_safe (rid : RegistrationId) (h : validateSuffix rid.suffix = .ok ()) :
    ∀ c ∈ rid.toStr, jsonSafeChar c = true := by
  intro c hc
  unfold RegistrationId.toStr at hc
  rw [List.mem_append] at hc
  rcases hc with hc | hc
  · have : jstr "reg_" = ['r', 'e', 'g', '_'] := rfl
    rw [this] at hc
    simp only [List.mem_cons, List.not_mem_nil, or_false] at hc
    rcases hc with rfl | rfl | rfl | rfl <;> rfl
  · exact (suffix_safe _ h).1 c hc

theorem regid_parse_toStr (rid : RegistrationId) (h : validateSuffix rid.suffix = .ok ()) :
    RegistrationId.parse rid.toStr = .ok rid := by
  have hu : '_' ∉ rid.suffix := (suffix_safe _ h).2
  show RegistrationId.parse (jstr "reg" ++ '_' :: rid.suffix) = .ok rid
  unfold RegistrationId.parse typeIdFromString
  rw [if_pos (by simp : '_' ∈ jstr "reg" ++ '_' :: rid.suffix),
    beforeLast_underscore _ _ hu, afterLast_underscore _ _ hu,
    if_neg (by simp [validTag, jstr]), h]
  simp only []
  rw [if_neg (fun hne => hne rfl)]

/-- The flat JSON string map of a signed record, in the source's fixed field
order. -/
def regKvs (r : DapRegistration) (sig : JStr) : List (JStr × JStr) :=
  [(jstr "id", r.id.toStr), (jstr "handle", r.handle), (jstr "did", r.did),
   (jstr "domain", r.domain), (jstr "signature", sig)]

theorem toJSON_signed (r : DapRegistration) (sig : JStr) (hs : r.signature = some sig) :
    r.toJSON = .obj (strMembers (regKvs r sig)) := by
  unfold DapRegistration.toJSON regKvs strMembers
  rw [hs]
  rfl

theorem regKvs_safe (r : DapRegistration) (sig : JStr)
    (hid : validateSuffix r.id.suffix = .ok ())
    (hh : ∀ c ∈ r.handle, jsonSafeChar c = true)
    (hd : ∀ c ∈ r.did, jsonSafeChar c = true)
    (hdom : ∀ c ∈ r.domain, jsonSafeChar c = true)
    (hsg : ∀ c ∈ sig, jsonSafeChar c = true) :
    safeKvs (regKvs r sig) := by
  intro kv hkv
  unfold regKvs at hkv
  simp only [List.mem_cons, List.not_mem_nil, or_false] at hkv
  rcases hkv with rfl | rfl | rfl | rfl | rfl
  · exact ⟨show ∀ c ∈ jstr "id", jsonSafeChar c = true by decide, toStr_safe r.id hid⟩
  · exact ⟨show ∀ c ∈ jstr "handle", jsonSafeChar c = true by decide, hh⟩
  · exact ⟨show ∀ c ∈ jstr "did", jsonSafeChar c = true by decide, hd⟩
  · exact ⟨show ∀ c ∈ jstr "domain", jsonSafeChar c = true by decide, hdom⟩
  · exact ⟨show ∀ c ∈ jstr "signature", jsonSafeChar c = true by decide, hsg⟩

theorem asStrField_regKvs (r : DapRegistration) (sig : JStr) :
    asStrField (.obj (strMembers (regKvs r sig))) (jstr "id") = some r.id.toStr ∧
    asStrField (.obj (strMembers (regKvs r sig))) (jstr "handle") = some r.handle ∧
    asStrField (.obj (strMembers (regKvs r sig))) (jstr "did") = some r.did ∧
    asStrField (.obj (strMembers (regKvs r sig))) (jstr "domain") = some r.domain ∧
    asStrField (.obj (strMembers (regKvs r sig))) (jstr "signature") = some sig :=
  ⟨rfl, rfl, rfl, rfl, rfl⟩

/-- C4: for a validly signed record (its stored signature verifies as a
detached JWS over the recomputed digest and the recovered signer is the
record's `did`) whose id suffix is a valid TypeID suffix and whose string
fields are JSON-literal-safe, serialization emits the fixed field order
`{id, handle, did, domain, signature}`, and
`parse(serialize(r)).serialize() == serialize(r)` (with
`parse(serialize(r)) == r` itself). -/
theorem reg_parse_serialize_roundtrip (Jwk : Type) (ctx : VerifyCtx Jwk)
    (r : DapRegistration) (sig : JStr)
    (hsig : r.signature = some sig)
    (hver : Crypto.verify ctx (.str sig) (some r.computeDigest) = .ok r.did)
    (hid : validateSuffix r.id.suffix = .ok ())
    (hh : ∀ c ∈ r.handle, jsonSafeChar c = true)
    (hd : ∀ c ∈ r.did, jsonSafeChar c = true)
    (hdom : ∀ c ∈ r.domain, jsonSafeChar c = true)
    (hsg : ∀ c ∈ sig, jsonSafeChar c = true) :
    r.toJSON = .obj [(jstr "id", .str r.id.toStr), (jstr "handle", .str r.handle),
      (jstr "did", .str r.did), (jstr "domain", .str r.domain),
      (jstr "signature", .str sig)] ∧
    DapRegistration.parse ctx r.serialize = .ok r ∧
    (DapRegistration.parse ctx r.serialize).map DapRegistration.serialize
      = Except.ok r.serialize := by
  have hJ : r.toJSON = .obj (strMembers (regKvs r sig)) := toJSON_signed r sig hsig
  have hsafe := regKvs_safe r sig hid hh hd hdom hsg
  have hparse : jsonParse r.serialize = some (.obj (strMembers (regKvs r sig))) := by
    unfold DapRegistration.serialize
    rw [hJ]
    exact jsonParse_flat_obj _ hsafe
  have hfields := asStrField_regKvs r sig
  have hverify : r.verify ctx = .ok r.did := by
    unfold DapRegistration.verify
    rw [hsig]
    simp only [hver]
    rw [if_neg (fun hc => hc rfl)]
  have hr : (⟨r.id, r.handle, r.did, r.domain, some sig⟩ : DapRegistration) = r := by
    rw [← hsig]
  have hmain : DapRegistration.parse ctx r.serialize = .ok r := by
    unfold DapRegistration.parse
    rw [hparse]
    simp only []
    rw [hfields.1]
    simp only []
    rw [regid_parse_toStr r.id hid]
    simp only []
    rw [hfields.2.1, hfields.2.2.1, hfields.2.2.2.1]
    simp only []
    rw [hfields.2.2.2.2, hr, hverify]
  refine ⟨by rw [hJ]; rfl, hmain, ?_⟩
  rw [hmain]
  rfl

/-- Witness for `reg_parse_serialize_roundtrip`: a concrete signed record
under a resolver/key-manager that accepts the stored signature; parsing its
serialization recovers the record, re-serializing reproduces the bytes. -/
theorem reg_parse_serialize_roundtrip_witness :
    @DapRegistration.parse Unit ⟨fun _ => some ⟨some ()⟩, fun _ _ _ => true⟩
      (DapRegistration.serialize ⟨⟨jstr "0123456789abcdefghjkmnpqrs"⟩, jstr "h",
        jstr "did:example:123", jstr "d",
        some (jstr "eyJhbGciOiJFUzI1NksiLCJraWQiOiJkaWQ6ZXhhbXBsZToxMjMjMCJ9..")⟩)
      = .ok ⟨⟨jstr "0123456789abcdefghjkmnpqrs"⟩, jstr "h", jstr "did:example:123",
        jstr "d", some (jstr "eyJhbGciOiJFUzI1NksiLCJraWQiOiJkaWQ6ZXhhbXBsZToxMjMjMCJ9..")⟩ ∧
    (@DapRegistration.parse Unit ⟨fun _ => some ⟨some ()⟩, fun _ _ _ => true⟩
      (DapRegistration.serialize ⟨⟨jstr "0123456789abcdefghjkmnpqrs"⟩, jstr "h",
        jstr "did:example:123", jstr "d",
        some (jstr "eyJhbGciOiJFUzI1NksiLCJraWQiOiJkaWQ6ZXhhbXBsZToxMjMjMCJ9..")⟩)).map
      DapRegistration.serialize
      = Except.ok (DapRegistration.serialize ⟨⟨jstr "0123456789abcdefghjkmnpqrs"⟩,
        jstr "h", jstr "did:example:123", jstr "d",
        some (jstr "eyJhbGciOiJFUzI1NksiLCJraWQiOiJkaWQ6ZXhhbXBsZToxMjMjMCJ9..")⟩) := by
  have h := reg_parse_serialize_roundtrip Unit ⟨fun _ => some ⟨some ()⟩, fun _ _ _ => true⟩
    ⟨⟨jstr "0123456789abcdefghjkmnpqrs"⟩, jstr "h", jstr "did:example:123", jstr "d",
      some (jstr "eyJhbGciOiJFUzI1NksiLCJraWQiOiJkaWQ6ZXhhbXBsZToxMjMjMCJ9..")⟩
    (jstr "eyJhbGciOiJFUzI1NksiLCJraWQiOiJkaWQ6ZXhhbXBsZToxMjMjMCJ9..")
    rfl (by rfl) rfl (by decide) (by decide) (by decide) (by decide)
  exact ⟨h.2.1, h.2.2⟩
